import Mathlib

/-!
Verification development for the relational-database cache engine of the
`hilcat` repository (`src/hilcat/db/relational.py` and the dialect builders in
`src/hilcat/db/sqlite.py`, `src/hilcat/db/mysql.py`,
`src/hilcat/db/postgresql.py`).

The Python code is shallowly embedded: Python dicts become ordered association
lists with Python's insert/replace semantics, raised exceptions become
`Except String`, and the external SQL engine (not part of the repository) is
modelled by an explicit table state with insert/update/select/delete
semantics of the generated statements.
-/

namespace Hilcat

/-- A scalar column value. The source's `_COLUMN_VALUE_TYPE = Union[str, int]`;
NULL is added for SQL semantics (a Python `None`). -/
inductive ScalarVal where
  | vstr (s : String)
  | vint (n : Int)
  | vnull
deriving DecidableEq, Repr

/-- A column value: SQL strings, integers, NULL, and a tuple of scalars
(the latter embeds Python's behaviour of using a whole list/tuple of
scalars as a single value, e.g. in `normalize_columns_values` with one
column; per the source's `_KEY_TYPE`, key sequences contain only
strings and integers, so the payload is scalar). -/
inductive Val where
  | vstr (s : String)
  | vint (n : Int)
  | vnull
  | vtup (l : List ScalarVal)
deriving DecidableEq, Repr

/-- Forget tuple structure; keys are strings or integers per the source's
`_KEY_TYPE`, so the `vtup` case does not occur on key elements. -/
def Val.scalarize : Val → ScalarVal
  | .vstr s => .vstr s
  | .vint n => .vint n
  | .vnull => .vnull
  | .vtup _ => .vnull

/-- A Python dict with string keys, as an ordered association list.
Well-formed dicts have no duplicate keys. -/
abbrev Dict := List (String × Val)

/-- Python `d[k]` / `d.get(k)`: value of the first matching key. -/
def Dict.get? : Dict → String → Option Val
  | [], _ => none
  | (k2, v) :: rest, k => if k2 = k then some v else Dict.get? rest k

/-- Python `k in d`. -/
def Dict.hasKey (d : Dict) (k : String) : Bool :=
  (Dict.get? d k).isSome

/-- Python `list(d.keys())`. -/
def Dict.keys (d : Dict) : List String := d.map Prod.fst

/-- Python `d[k] = v`: replace the value in place if the key is present,
else append the pair at the end. -/
def Dict.insert : Dict → String → Val → Dict
  | [], k, v => [(k, v)]
  | (k2, v2) :: rest, k, v =>
      if k2 = k then (k2, v) :: rest else (k2, v2) :: Dict.insert rest k v

/-- Python `d.update(pairs)`: left-to-right `d[k] = v`. -/
def Dict.updateWith (d : Dict) (ps : List (String × Val)) : Dict :=
  ps.foldl (fun d kv => Dict.insert d kv.1 kv.2) d

/-- Python `dict(zip(cols, vals))`: zip truncates to the shorter list,
a repeated key keeps the last value. -/
def pyDictOfZip (cols : List String) (vals : List Val) : Dict :=
  Dict.updateWith [] (List.zip cols vals)

/-- The value bound to `k` by the *last* pair of `ps` naming `k`, if any
(used to reason about `Dict.updateWith`). -/
def lastVal : List (String × Val) → String → Option Val
  | [], _ => none
  | p :: ps, k =>
      match lastVal ps k with
      | some v => some v
      | none => if p.1 = k then some p.2 else none

/-- A cache value, as handed to `set()` / returned by `fetch()`:
a column map (for `DefaultAdapter`), a scalar (for `SingleAdapter`),
or a sequence (for `SequenceAdapter`). -/
inductive CacheValue where
  | dict (d : Dict)
  | scalar (v : Val)
  | seq (l : List Val)
deriving DecidableEq, Repr

/-- The value adapters of `relational.py`: `DefaultAdapter`,
`SingleAdapter(col)` and `SequenceAdapter(cols, return_type)`
(`asList` records `return_type is list`; both sequence types are
embedded as Lean lists). -/
inductive ValueAdapter where
  | defaultA
  | single (col : String)
  | sequenceA (cols : List String) (asList : Bool)
deriving DecidableEq, Repr

/-- `ValueAdapter.build_column_values`, by variant:
`DefaultAdapter` returns the value unchanged (a non-dict value is a
dynamic-typing error downstream in Python, modelled as an error here);
`SingleAdapter` wraps the value under its column;
`SequenceAdapter` is `dict(zip(self.cols, value))` — no length check. -/
def ValueAdapter.build_column_values : ValueAdapter → CacheValue → Except String Dict
  | .defaultA, .dict d => .ok d
  | .defaultA, _ => .error "TypeError: DefaultAdapter value is used as a dict"
  | .single col, .scalar v => .ok [(col, v)]
  | .single col, .seq l => .ok [(col, .vtup (l.map Val.scalarize))]
  | .single _, .dict _ => .error "unrepresentable: dict stored as a single column value"
  | .sequenceA cols _, .seq l => .ok (pyDictOfZip cols l)
  | .sequenceA _ _, _ => .error "TypeError: SequenceAdapter value is used as a sequence"

/-- `ValueAdapter.parse_column_values`, by variant:
identity for `DefaultAdapter`; `value[self.col]` (KeyError when absent)
for `SingleAdapter`; `self.return_type(map(value.get, self.cols))` for
`SequenceAdapter` (`dict.get` yields `None` for a missing key). -/
def ValueAdapter.parse_column_values : ValueAdapter → Dict → Except String CacheValue
  | .defaultA, d => .ok (.dict d)
  | .single col, d =>
      match Dict.get? d col with
      | some v => .ok (.scalar v)
      | none => .error ("KeyError: " ++ col)
  | .sequenceA cols _, d => .ok (.seq (cols.map (fun c => (Dict.get? d c).getD .vnull)))

/-- The `value_adapter` constructor argument of `BaseTableConfig`:
one of the literal strings, or a `ValueAdapter` instance. -/
inductive AdapterSpec where
  | auto
  | defaultA
  | single
  | tuple
  | list
  | custom (a : ValueAdapter)
deriving Repr

/-- `BaseTableConfig` (`relational.py`): a table name, the unique
(identifying) columns, the data columns selected by `fetch()`, and the
value adapter. Column types are omitted: no claim concerns the
generated column type text. -/
structure BaseTableConfig where
  table : String
  uniq_columns : List String
  columns : List String
  value_adapter : ValueAdapter
deriving DecidableEq, Repr

/-- `BaseTableConfig.columns_with_id`:
`[x for x in uniq_columns if x not in columns] + list(columns)`. -/
def BaseTableConfig.columns_with_id (c : BaseTableConfig) : List String :=
  c.uniq_columns.filter (fun x => !(c.columns.contains x)) ++ c.columns

/-- `BaseTableConfig._check_value_adapter(adapter, columns)`. -/
def BaseTableConfig.check_value_adapter (adapter : AdapterSpec) (columns : List String) :
    Except String ValueAdapter :=
  match adapter with
  | .auto =>
      if columns.length = 1 then .ok (.single (columns.headD "")) else .ok .defaultA
  | .defaultA => .ok .defaultA
  | .single =>
      if columns.length ≠ 1 then
        .error "columns length should be 1 when value_adapter is single."
      else .ok (.single (columns.headD ""))
  | .tuple => .ok (.sequenceA columns false)
  | .list => .ok (.sequenceA columns true)
  | .custom a => .ok a

/-- A key argument of the public cache operations
(`_KEY_TYPE = Union[str, int, Sequence[...]]`): a scalar, or a
list/tuple of column values. -/
inductive CacheKey where
  | scalar (v : Val)
  | tup (l : List Val)
deriving DecidableEq, Repr

/-- `BaseTableConfig.normalize_columns_values(value, columns)`:
with more than one column the key must be a list/tuple of exactly that
length (else `ValueError`); with one column the key is wrapped into a
one-element list as it stands (a list/tuple key becomes a single tuple
value). -/
def normalize_columns_values (value : CacheKey) (columns : List String) :
    Except String (List Val) :=
  let n := columns.length
  if n > 1 then
    match value with
    | .scalar _ => .error "value should be a list or tuple"
    | .tup l =>
        if l.length ≠ n then .error "value size mismatch"
        else .ok l
  else
    match value with
    | .scalar v => .ok [v]
    | .tup l => .ok [.vtup (l.map Val.scalarize)]

/-- `BaseTableConfig.normalize_uniq_column_values(key)`. -/
def BaseTableConfig.normalize_uniq_column_values (c : BaseTableConfig) (key : CacheKey) :
    Except String (List Val) :=
  normalize_columns_values key c.uniq_columns

/-- `Operation.parameters`: an ordered list (when the builder sets
`list_parameter`) or a name-to-value mapping. -/
inductive Params where
  | plist (l : List Val)
  | pdict (d : Dict)
deriving DecidableEq, Repr

/-- `Operation` (`relational.py`): one SQL statement, its bound
parameters, and the `many` flag. -/
structure Operation where
  statement : String
  parameters : Params := .plist []
  many : Bool := false
deriving DecidableEq, Repr

/-- `SimpleSqlBuilder`: the shared statement generator, parameterized by
the placeholder style. `get_variable_placeholder(name, order, value)`
renders one parameter marker; `list_parameter` selects list vs dict
parameter packaging. -/
structure SimpleSqlBuilder where
  list_parameter : Bool
  get_variable_placeholder : Option String → Option Nat → Val → String

/-- `SimpleSqlBuilder.config_variable`: record `name -> value` in the
variable mapping and return the rendered placeholder. -/
def SimpleSqlBuilder.config_variable (b : SimpleSqlBuilder) (name : String) (order : Nat)
    (value : Val) (variable_mapping : Dict) : String × Dict :=
  (b.get_variable_placeholder (some name) (some order) value,
   Dict.insert variable_mapping name value)

/-- `SimpleSqlBuilder.normalize_variable_values(variable_values,
variable_names)`: with `list_parameter`, values in the order of
`variable_names` when given, else insertion order; otherwise the dict. -/
def SimpleSqlBuilder.normalize_variable_values (b : SimpleSqlBuilder)
    (variable_values : Dict) (variable_names : Option (List String)) : Params :=
  if b.list_parameter then
    match variable_names with
    | some names => .plist (names.map (fun n => (Dict.get? variable_values n).getD .vnull))
    | none => .plist (variable_values.map Prod.snd)
  else .pdict variable_values

/-- One step of the WHERE-condition loop of `build_select_operation`
(`for i, (name, k) in enumerate(zip(uniq_columns, key), 1)`). -/
def selectCondStep (b : SimpleSqlBuilder) (acc : List String × Dict × Nat)
    (nk : String × Val) : List String × Dict × Nat :=
  let (conds, vals, i) := acc
  let (ph, vals2) := b.config_variable nk.1 i nk.2 vals
  (conds ++ [nk.1 ++ " = " ++ ph], vals2, i + 1)

/-- `SimpleSqlBuilder.build_select_operation(config, key, limit,
select_columns, distinct)`. The Python `assert len(config.uniq_columns)
== len(key)` is the `AssertionError` branch. -/
def SimpleSqlBuilder.build_select_operation (b : SimpleSqlBuilder) (config : BaseTableConfig)
    (key : Option (List Val)) (limit : Int)
    (select_columns : Option (List String)) (distinct : Bool) : Except String Operation :=
  let select_columns := select_columns.getD config.columns
  let stmt := "SELECT" ++ (if distinct then " DISTINCT" else "") ++ " "
      ++ String.intercalate "," select_columns ++ " FROM " ++ config.table
  match key with
  | none =>
      let stmt := if limit > 0 then stmt ++ " LIMIT " ++ toString limit else stmt
      .ok { statement := stmt, parameters := b.normalize_variable_values [] none }
  | some key =>
      if config.uniq_columns.length ≠ key.length then
        .error "AssertionError: len(config.uniq_columns) == len(key)"
      else
        let (conds, vals, _) := (List.zip config.uniq_columns key).foldl (selectCondStep b) ([], [], 1)
        let stmt := stmt ++ " WHERE " ++ String.intercalate " AND " conds
        let stmt := if limit > 0 then stmt ++ " LIMIT " ++ toString limit else stmt
        .ok { statement := stmt, parameters := b.normalize_variable_values vals none }

/-- `enumerate(l, 1)`. -/
def enumerate1 (l : List α) : List (Nat × α) :=
  l.enum.map (fun p => (p.1 + 1, p.2))

/-- `SimpleSqlBuilder._gen_update_statement(config, value)`: the
`INSERT ... ON CONFLICT(uniq_columns) DO UPDATE SET ...` upsert text
(sqlite syntax); both placeholder lists enumerate `value.items()` from 1. -/
def SimpleSqlBuilder.gen_update_statement (b : SimpleSqlBuilder) (config : BaseTableConfig)
    (value : Dict) : String × Bool :=
  let first := String.intercalate "," ((enumerate1 value).map (fun p =>
      b.get_variable_placeholder (some p.2.1) (some p.1) p.2.2))
  let second := String.intercalate "," ((enumerate1 value).map (fun p =>
      p.2.1 ++ "=" ++ b.get_variable_placeholder (some p.2.1) (some p.1) p.2.2))
  ("INSERT INTO " ++ config.table ++ "(" ++ String.intercalate "," (Dict.keys value) ++ ")"
    ++ " VALUES (" ++ first ++ ")"
    ++ " ON CONFLICT(" ++ String.intercalate "," config.uniq_columns ++ ") DO UPDATE"
    ++ " SET " ++ second, false)

/-- `SimpleSqlBuilder._gen_update_variables(value)`:
`(value, list(value.keys()) * 2)`. -/
def SimpleSqlBuilder.gen_update_variables (value : Dict) : Dict × List String :=
  (value, Dict.keys value ++ Dict.keys value)

/-- `SimpleSqlBuilder.build_update_operation(config, key, value)`: add the
unique-column values to `value` (`value[name] = k`), then generate the
upsert statement and its parameters. -/
def SimpleSqlBuilder.build_update_operation (b : SimpleSqlBuilder) (config : BaseTableConfig)
    (key : List Val) (value : Dict) : Except String Operation :=
  if config.uniq_columns.length ≠ key.length then
    .error "AssertionError: len(config.uniq_columns) == len(key)"
  else
    let value := (List.zip config.uniq_columns key).foldl
        (fun d nk => Dict.insert d nk.1 nk.2) value
    let (stmt, many) := b.gen_update_statement config value
    let (variable_values, variable_names) := SimpleSqlBuilder.gen_update_variables value
    .ok { statement := stmt,
          parameters := b.normalize_variable_values variable_values (some variable_names),
          many := many }

/-- One step of the WHERE-condition loop of `build_delete_operation`.
The source passes `order=1` for every marker (not the loop index `i`). -/
def deleteCondStep (b : SimpleSqlBuilder) (acc : List String × Dict)
    (nk : String × Val) : List String × Dict :=
  let (conds, vals) := acc
  let (ph, vals2) := b.config_variable nk.1 1 nk.2 vals
  (conds ++ [nk.1 ++ " = " ++ ph], vals2)

/-- `SimpleSqlBuilder.build_delete_operation(config, key)`. -/
def SimpleSqlBuilder.build_delete_operation (b : SimpleSqlBuilder) (config : BaseTableConfig)
    (key : Option (List Val)) : Except String Operation :=
  let stmt := "DELETE FROM " ++ config.table
  match key with
  | none => .ok { statement := stmt, parameters := b.normalize_variable_values [] none }
  | some key =>
      if config.uniq_columns.length ≠ key.length then
        .error "AssertionError: len(config.uniq_columns) == len(key)"
      else
        let (conds, vals) := (List.zip config.uniq_columns key).foldl (deleteCondStep b) ([], [])
        .ok { statement := stmt ++ " WHERE " ++ String.intercalate " AND " conds,
              parameters := b.normalize_variable_values vals none }

/-- `QmarkSqlBuilder`: fixed `?` marker, list parameters. -/
def QmarkSqlBuilder : SimpleSqlBuilder :=
  { list_parameter := true, get_variable_placeholder := fun _ _ _ => "?" }

/-- `NumericSqlBuilder`: `:order` markers, list parameters. -/
def NumericSqlBuilder : SimpleSqlBuilder :=
  { list_parameter := true,
    get_variable_placeholder := fun _ order _ => ":" ++ toString (order.getD 0) }

/-- `NamedSqlBuilder`: `:name` markers, dict parameters. -/
def NamedSqlBuilder : SimpleSqlBuilder :=
  { list_parameter := false,
    get_variable_placeholder := fun name _ _ => ":" ++ name.getD "" }

/-- `FormatSqlBuilder.get_value_type(value)`: `'s'` for strings, `'d'`
for integers, `'s'` otherwise (Python floats do not occur in `Val`). -/
def get_value_type : Val → String
  | .vstr _ => "s"
  | .vint _ => "d"
  | .vnull => "s"
  | .vtup _ => "s"

/-- `FormatSqlBuilder`: `%s`-style markers from the value's runtime type,
list parameters. -/
def FormatSqlBuilder : SimpleSqlBuilder :=
  { list_parameter := true,
    get_variable_placeholder := fun _ _ v => "%" ++ get_value_type v }

/-- `PyformatSqlBuilder`: `%(name)s`-style markers, dict parameters. -/
def PyformatSqlBuilder : SimpleSqlBuilder :=
  { list_parameter := false,
    get_variable_placeholder := fun name _ v => "%(" ++ name.getD "" ++ ")" ++ get_value_type v }

/-- `SqlBuilder.get_column_name_from_result(result)`: base-class default,
inherited by `PostgresqlBuilder` — the field at index 0. An out-of-range
index is Python's `IndexError`, hence `Option`. -/
def SqlBuilder.get_column_name_from_result (result : List Val) : Option Val :=
  result.get? 0

/-- `MysqlSqlBuilder.get_column_name_from_result(result)` (`mysql.py`):
the field at index 4 ("4th is column name"). -/
def MysqlSqlBuilder.get_column_name_from_result (result : List Val) : Option Val :=
  result.get? 4

/-- `SqliteSqlBuilder.get_column_name_from_result(result)` (`sqlite.py`):
the field at index 1 of a `PRAGMA table_info` row. -/
def SqliteSqlBuilder.get_column_name_from_result (result : List Val) : Option Val :=
  result.get? 1

/-! ### Database semantics

The SQL engine itself (sqlite/postgresql/mysql) is an external
collaborator of the repository. The effect of the statements the
builders generate is modelled here explicitly: a table is a list of
rows, a row is a column map; `INSERT ... ON CONFLICT ... DO UPDATE SET`
updates exactly the assigned columns of the conflicting row or appends
a new row; `SELECT`/`DELETE` with a WHERE clause match the unique
columns against the key. -/

/-- A stored row: the columns the row was ever assigned. A column absent
from the map reads as SQL NULL. -/
abbrev Row := Dict

/-- A table: its rows in insertion order. -/
abbrev Table := List Row

/-- Whether a row satisfies `WHERE uniq_1 = key_1 AND ...`
(a NULL column never matches). -/
def rowMatches (uniq : List String) (key : List Val) (r : Row) : Bool :=
  (List.zip uniq key).all (fun nk => Dict.get? r nk.1 == some nk.2)

/-- Effect of the upsert statement: update the assigned columns of every
row in conflict with the key, or append the new row. -/
def applyUpsert (uniq : List String) (key : List Val) (assigns : Dict) (tbl : Table) : Table :=
  if tbl.any (rowMatches uniq key) then
    tbl.map (fun r => if rowMatches uniq key r then Dict.updateWith r assigns else r)
  else tbl ++ [assigns]

/-- Effect of `SELECT ... WHERE ... LIMIT 1` followed by `fetchone()`. -/
def selectRow (uniq : List String) (key : List Val) (tbl : Table) : Option Row :=
  tbl.find? (rowMatches uniq key)

/-- The tuple of selected column values of one row (missing = NULL). -/
def selectCols (cols : List String) (r : Row) : List Val :=
  cols.map (fun c => (Dict.get? r c).getD .vnull)

/-- Effect of `DELETE ... WHERE ...`. -/
def applyDelete (uniq : List String) (key : List Val) (tbl : Table) : Table :=
  tbl.filter (fun r => !(rowMatches uniq key r))

/-- The database: table name to table contents. -/
abbrev Database := List (String × Table)

/-- The rows of a table (a name never created holds no rows). -/
def Database.getTable (db : Database) (t : String) : Table :=
  match db.find? (fun p => p.1 = t) with
  | some p => p.2
  | none => []

/-- Whether a table exists in the database. -/
def Database.hasTable (db : Database) (t : String) : Bool :=
  (db.find? (fun p => p.1 = t)).isSome

/-- Replace (or create) the contents of one table. -/
def Database.setTable : Database → String → Table → Database
  | [], t, tbl => [(t, tbl)]
  | p :: rest, t, tbl =>
      if p.1 = t then (p.1, tbl) :: rest else p :: Database.setTable rest t tbl

/-- Effect of `CREATE TABLE IF NOT EXISTS`. -/
def Database.createTableIfNotExists (db : Database) (t : String) : Database :=
  if Database.hasTable db t then db else Database.setTable db t []

/-! ### `BaseRelationalDbCache` primitives (`_exists`, `_fetch`, `_set`,
`_pop`), acting on the database state. The `AssertionError` branches
mirror the key-arity asserts of the statement builders that these
primitives call. -/

/-- `BaseRelationalDbCache._exists(key, table)`: select the unique
columns with `LIMIT 1` and test for a row. -/
def BaseRelationalDbCache._exists (key : List Val) (table : BaseTableConfig)
    (db : Database) : Except String Bool :=
  if table.uniq_columns.length ≠ key.length then
    .error "AssertionError: len(config.uniq_columns) == len(key)"
  else .ok (selectRow table.uniq_columns key (Database.getTable db table.table)).isSome

/-- `BaseRelationalDbCache._fetch(key, table, default)`: select
`table.columns`, zip the fetched row with the column names and run the
value adapter's parse; `default` when no row matches. -/
def BaseRelationalDbCache._fetch (key : List Val) (table : BaseTableConfig)
    (default : CacheValue) (db : Database) : Except String CacheValue :=
  if table.uniq_columns.length ≠ key.length then
    .error "AssertionError: len(config.uniq_columns) == len(key)"
  else
    match selectRow table.uniq_columns key (Database.getTable db table.table) with
    | none => .ok default
    | some r =>
        let value := pyDictOfZip table.columns (selectCols table.columns r)
        table.value_adapter.parse_column_values value

/-- The unique-column part of the row built in
`BaseRelationalDbCache._set`: `for name, k in zip(uniq_columns, key)`,
raise `ValueError` when `name in value and k != value[name]`, else
`row[name] = k`. -/
def buildUniqRow (value : Dict) : List (String × Val) → Row → Except String Row
  | [], row => .ok row
  | nk :: rest, row =>
      match Dict.get? value nk.1 with
      | some v =>
          if nk.2 ≠ v then
            .error ("column " ++ nk.1 ++ " key is different from value")
          else buildUniqRow value rest (Dict.insert row nk.1 nk.2)
      | none => buildUniqRow value rest (Dict.insert row nk.1 nk.2)

/-- The generator argument of `row.update(...)` in
`BaseRelationalDbCache._set`:
`((name, value[name]) for name in columns if name in value)`. -/
def dataUpdates (columns : List String) (value : Dict) : List (String × Val) :=
  columns.filterMap (fun n => (Dict.get? value n).map (fun v => (n, v)))

/-- The full row written by `BaseRelationalDbCache._set`: the
unique-column values, then
`row.update((name, value[name]) for name in table.columns if name in value)`. -/
def BaseRelationalDbCache.build_row (table : BaseTableConfig) (key : List Val)
    (value : Dict) : Except String Row := do
  let row ← buildUniqRow value (List.zip table.uniq_columns key) []
  pure (Dict.updateWith row (dataUpdates table.columns value))

/-- `BaseRelationalDbCache._set(key, value, table)`: convert the value
through the adapter, build the row (raising on a unique-column
conflict), then execute the upsert. -/
def BaseRelationalDbCache._set (key : List Val) (value : CacheValue)
    (table : BaseTableConfig) (db : Database) : Except String Database := do
  let valueDict ← table.value_adapter.build_column_values value
  let row ← BaseRelationalDbCache.build_row table key valueDict
  if table.uniq_columns.length ≠ key.length then
    throw "AssertionError: len(config.uniq_columns) == len(key)"
  else
    pure (Database.setTable db table.table
      (applyUpsert table.uniq_columns key row (Database.getTable db table.table)))

/-- `BaseRelationalDbCache._pop(key, table)`: execute the delete. -/
def BaseRelationalDbCache._pop (key : List Val) (table : BaseTableConfig)
    (db : Database) : Except String Database :=
  if table.uniq_columns.length ≠ key.length then
    .error "AssertionError: len(config.uniq_columns) == len(key)"
  else
    .ok (Database.setTable db table.table
      (applyDelete table.uniq_columns key (Database.getTable db table.table)))

/-! ### `RelationalDbCache`: the scope registry over the primitives. -/

/-- `RelationalDbScopeConfig`: a `BaseTableConfig` plus its scope name
(scopes are strings in all claims). -/
structure RelationalDbScopeConfig extends BaseTableConfig where
  scope : String
deriving DecidableEq, Repr

/-- The mutable state of a `RelationalDbCache` instance: the
`scope -> config` and `table -> config` registries, the database the
connection points at, and the optional `new_scope_config` factory.
The auto-discovery branch of `_init_scopes` (`all_table_as_scope`)
introspects the live schema and is not exercised by any claim; the
model corresponds to `all_table_as_scope=False`. -/
structure RelationalDbCache where
  scopes : List (String × RelationalDbScopeConfig)
  tables : List (String × RelationalDbScopeConfig)
  db : Database
  new_scope_config : Option (String → RelationalDbScopeConfig)

/-- Registry lookup (`scope in self._scopes` / `self._scopes[scope]`). -/
def regGet? : List (String × RelationalDbScopeConfig) → String →
    Option RelationalDbScopeConfig
  | [], _ => none
  | p :: rest, k => if p.1 = k then some p.2 else regGet? rest k

/-- `RelationalDbCache._add_scope(config)`: reject a duplicated scope or
a duplicated table, else record the config in both registries. -/
def RelationalDbCache._add_scope (st : RelationalDbCache)
    (config : RelationalDbScopeConfig) : Except String RelationalDbCache :=
  if (regGet? st.scopes config.scope).isSome then
    .error ("duplicated scope: " ++ config.scope)
  else if (regGet? st.tables config.table).isSome then
    .error ("duplicated table: " ++ config.table)
  else
    .ok { st with
          scopes := st.scopes ++ [(config.scope, config)],
          tables := st.tables ++ [(config.table, config)] }

/-- `BaseRelationalDbCache._create_table_if_not_exists(*scopes)`. -/
def RelationalDbCache._create_table_if_not_exists (st : RelationalDbCache)
    (configs : List RelationalDbScopeConfig) : RelationalDbCache :=
  { st with db := configs.foldl (fun db c => Database.createTableIfNotExists db c.table) st.db }

/-- `RelationalDbCache._init_scopes(scopes, ...)` for the explicit config
list: register every config (raising on duplicates), then create the
missing tables — in that order. -/
def RelationalDbCache._init_scopes (st : RelationalDbCache)
    (scopes : List RelationalDbScopeConfig) : Except String RelationalDbCache :=
  if scopes.isEmpty then .ok st
  else do
    let st2 ← scopes.foldlM RelationalDbCache._add_scope st
    pure (st2._create_table_if_not_exists scopes)

/-- `RelationalDbCache._get_scope_config(scope)`: a registered scope's
config, or — via the `new_scope_config` factory when present — lazy
registration (validating the factory's scope name, registering, and
creating the table if absent). Raises when no factory is configured. -/
def RelationalDbCache._get_scope_config (st : RelationalDbCache) (scope : String) :
    Except String (RelationalDbScopeConfig × RelationalDbCache) :=
  match regGet? st.scopes scope with
  | some config => .ok (config, st)
  | none =>
      match st.new_scope_config with
      | none => .error ("new scope is not allowed: " ++ scope)
      | some f =>
          let config := f scope
          if scope ≠ config.scope then
            .error ("conflict scope: " ++ scope ++ " " ++ config.scope)
          else do
            let st2 ← st._add_scope config
            pure (config, st2._create_table_if_not_exists [config])

/-- `RelationalDbCache.exists(key, scope)`. The `key is None` check of
`_check_key` is omitted: a Lean caller always passes a key. -/
def RelationalDbCache.exists (st : RelationalDbCache) (key : CacheKey) (scope : String) :
    Except String (Bool × RelationalDbCache) := do
  let (config, st) ← st._get_scope_config scope
  let k ← config.toBaseTableConfig.normalize_uniq_column_values key
  let r ← BaseRelationalDbCache._exists k config.toBaseTableConfig st.db
  pure (r, st)

/-- `RelationalDbCache.fetch(key, default, scope)`. -/
def RelationalDbCache.fetch (st : RelationalDbCache) (key : CacheKey)
    (default : CacheValue) (scope : String) :
    Except String (CacheValue × RelationalDbCache) := do
  let (config, st) ← st._get_scope_config scope
  let k ← config.toBaseTableConfig.normalize_uniq_column_values key
  let v ← BaseRelationalDbCache._fetch k config.toBaseTableConfig default st.db
  pure (v, st)

/-- `RelationalDbCache.set(key, value, scope)`. -/
def RelationalDbCache.set (st : RelationalDbCache) (key : CacheKey)
    (value : CacheValue) (scope : String) : Except String RelationalDbCache := do
  let (config, st) ← st._get_scope_config scope
  let k ← config.toBaseTableConfig.normalize_uniq_column_values key
  let db ← BaseRelationalDbCache._set k value config.toBaseTableConfig st.db
  pure { st with db := db }

/-- `RelationalDbCache.pop(key, scope)`. -/
def RelationalDbCache.pop (st : RelationalDbCache) (key : CacheKey) (scope : String) :
    Except String RelationalDbCache := do
  let (config, st) ← st._get_scope_config scope
  let k ← config.toBaseTableConfig.normalize_uniq_column_values key
  let db ← BaseRelationalDbCache._pop k config.toBaseTableConfig st.db
  pure { st with db := db }

/-! ### `SingleTableCache`: the single-table variant. -/

/-- `SingleTableConfig`: one physical table whose unique columns are the
scope columns followed by the key columns. -/
structure SingleTableConfig where
  table : String
  scope_columns : List String
  key_columns : List String
  columns : List String
  value_adapter : ValueAdapter
deriving DecidableEq, Repr

/-- The `BaseTableConfig` a `SingleTableConfig` constructs
(`uniq_columns = scope_columns + key_columns`). -/
def SingleTableConfig.toBaseTableConfig (c : SingleTableConfig) : BaseTableConfig :=
  { table := c.table,
    uniq_columns := c.scope_columns ++ c.key_columns,
    columns := c.columns,
    value_adapter := c.value_adapter }

/-- `SingleTableConfig.normalize_scope_column_values(scope)`. -/
def SingleTableConfig.normalize_scope_column_values (c : SingleTableConfig)
    (scope : CacheKey) : Except String (List Val) :=
  normalize_columns_values scope c.scope_columns

/-- `SingleTableCache.keys(scope)`: normalize the scope values, then ask
the builder for
`build_select_operation(config, key=scope, select_columns=key_columns)`
— the statement the method hands to `_execute`. -/
def SingleTableCache.keys_operation (config : SingleTableConfig) (b : SimpleSqlBuilder)
    (scope : CacheKey) : Except String Operation := do
  let scopeVals ← config.normalize_scope_column_values scope
  b.build_select_operation config.toBaseTableConfig (some scopeVals) (-1)
    (some config.key_columns) false

/-! ### Concrete instances used by the theorems below. -/

/-- A single-table config with one scope column and one key column
(`SingleTableConfig(table='t', scope_columns=('scope',), key_columns=('id',),
columns=('data',))`). -/
def stcScopeId : SingleTableConfig :=
  { table := "t", scope_columns := ["scope"], key_columns := ["id"],
    columns := ["data"], value_adapter := .single "data" }

/-- A two-unique-column table config (`uniq_columns=('a','b')`,
`columns=('data',)`). -/
def cfgAB : BaseTableConfig :=
  { table := "t", uniq_columns := ["a", "b"], columns := ["data"],
    value_adapter := .single "data" }

/-- Scope `a`: one unique column `id`, data columns `name`, `comment`,
default (column-map) adapter. -/
def cfgA : RelationalDbScopeConfig :=
  { scope := "a", table := "ta", uniq_columns := ["id"],
    columns := ["name", "comment"], value_adapter := .defaultA }

/-- Scope `d`: two unique columns, one data column, single adapter
(the composite-key scope of the repository's tests). -/
def cfgD : RelationalDbScopeConfig :=
  { scope := "d", table := "td", uniq_columns := ["id1", "id2"],
    columns := ["value"], value_adapter := .single "value" }

/-- A cache with scopes `a` and `d` registered, their tables empty, and
no new-scope factory. -/
def stAD : RelationalDbCache :=
  { scopes := [("a", cfgA), ("d", cfgD)],
    tables := [("ta", cfgA), ("td", cfgD)],
    db := [("ta", []), ("td", [])],
    new_scope_config := none }

/-- A `new_scope_config` factory in the style the repository documents:
table named after the scope, unique column `id`, single data column. -/
def newScopeFactory : String → RelationalDbScopeConfig :=
  fun s => { scope := s, table := s, uniq_columns := ["id"],
             columns := ["data"], value_adapter := .single "data" }

/-- The cache `stAD` with the factory configured. -/
def stADF : RelationalDbCache :=
  { stAD with new_scope_config := some newScopeFactory }

/-- A six-field introspection result row with pairwise distinct fields. -/
def introRow : List Val :=
  [.vstr "f0", .vstr "f1", .vstr "f2", .vstr "f3", .vstr "f4", .vstr "f5"]

/-- The row `set('k', {name: 'a', comment: 'b'}, scope='a')` writes. -/
def rowW1 : Row := [("id", .vstr "k"), ("name", .vstr "a"), ("comment", .vstr "b")]

/-- The row `set('k', {name: 'c', comment: 'e'}, scope='a')` writes. -/
def rowW2 : Row := [("id", .vstr "k"), ("name", .vstr "c"), ("comment", .vstr "e")]

/-- `stAD` after the first write of `rowW1`. -/
def stW1 : RelationalDbCache := { stAD with db := [("ta", [rowW1]), ("td", [])] }

/-- `stAD` after a write of `rowW2` (directly, or overwriting `rowW1`). -/
def stW2 : RelationalDbCache := { stAD with db := [("ta", [rowW2]), ("td", [])] }

/-- Config list with a duplicated scope name `e` over two tables. -/
def cfgE1 : RelationalDbScopeConfig :=
  { scope := "e", table := "te1", uniq_columns := ["id"],
    columns := ["data"], value_adapter := .single "data" }

/-- Second config with the same scope name `e`. -/
def cfgE2 : RelationalDbScopeConfig :=
  { scope := "e", table := "te2", uniq_columns := ["id"],
    columns := ["data"], value_adapter := .single "data" }

/-- A base table config with two unique columns and the default adapter. -/
def cfgABd : BaseTableConfig :=
  { table := "t", uniq_columns := ["a", "b"], columns := ["data"],
    value_adapter := .defaultA }

/-- A factory whose configs always target the table `ta` (already bound
to scope `a` in `stAD`): lazy registration of any new scope collides on
the table. -/
def factoryTaDup : String → RelationalDbScopeConfig := fun s =>
  { scope := s, table := "ta", uniq_columns := ["id"],
    columns := ["data"], value_adapter := .single "data" }

/-- `stAD` with the table-colliding factory configured. -/
def stADdup : RelationalDbCache :=
  { stAD with new_scope_config := some factoryTaDup }

/-- The state produced by a successful lazy registration: the scope and
table recorded, and the (previously absent) table created empty —
the combined effect of `_add_scope` and `_create_table_if_not_exists`
inside `_get_scope_config`. -/
def registerNewScope (st : RelationalDbCache) (cfg : RelationalDbScopeConfig) :
    RelationalDbCache :=
  { st with scopes := st.scopes ++ [(cfg.scope, cfg)],
            tables := st.tables ++ [(cfg.table, cfg)],
            db := Database.setTable st.db cfg.table [] }

/-! ### Shared lemmas about the dict model. -/

theorem exbind_ok {α β : Type} (a : α) (f : α → Except String β) :
    (Except.ok a >>= f) = f a := rfl

theorem exbind_error {α β : Type} (e : String) (f : α → Except String β) :
    ((Except.error e : Except String α) >>= f) = Except.error e := rfl

theorem Dict.get?_insert (d : Dict) (k : String) (v : Val) (k' : String) :
    Dict.get? (Dict.insert d k v) k' = if k = k' then some v else Dict.get? d k' := by
  induction d with
  | nil => simp only [Dict.insert, Dict.get?]
  | cons p rest ih =>
      obtain ⟨k2, v2⟩ := p
      by_cases h2 : k2 = k
      · simp only [Dict.insert, if_pos h2, Dict.get?]
        by_cases h' : k2 = k'
        · have hkk' : k = k' := h2 ▸ h'
          simp [h', hkk']
        · have hkk' : ¬ (k = k') := fun hh => h' (h2.trans hh)
          simp [h', hkk']
      · simp only [Dict.insert, if_neg h2, Dict.get?]
        by_cases h' : k2 = k'
        · have hkk' : ¬ (k = k') := fun hh => h2 (h'.trans hh.symm)
          simp [h', hkk']
        · simp only [if_neg h']
          exact ih

theorem Dict.hasKey_insert (d : Dict) (k : String) (v : Val) (k' : String) :
    Dict.hasKey (Dict.insert d k v) k' = (k = k' || Dict.hasKey d k') := by
  simp only [Dict.hasKey, Dict.get?_insert]
  by_cases h : k = k' <;> simp [h]

theorem Dict.get?_append (d1 d2 : Dict) (k : String) :
    Dict.get? (d1 ++ d2) k =
      match Dict.get? d1 k with
      | some v => some v
      | none => Dict.get? d2 k := by
  induction d1 with
  | nil => simp [Dict.get?]
  | cons p rest ih =>
      by_cases h : p.1 = k
      · simp [Dict.get?, h]
      · simp [Dict.get?, h, ih]

theorem Dict.hasKey_append (d1 d2 : Dict) (k : String) :
    Dict.hasKey (d1 ++ d2) k = (Dict.hasKey d1 k || Dict.hasKey d2 k) := by
  simp only [Dict.hasKey, Dict.get?_append]
  cases h : Dict.get? d1 k <;> simp

theorem Dict.insert_of_not_hasKey : ∀ (d : Dict) (k : String) (v : Val),
    Dict.hasKey d k = false → Dict.insert d k v = d ++ [(k, v)]
  | [], _, _, _ => by simp [Dict.insert]
  | p :: rest, k, v, h => by
      have h1 : ¬ (p.1 = k) := by
        intro hh
        simp [Dict.hasKey, Dict.get?, hh] at h
      have h2 : Dict.hasKey rest k = false := by
        simpa [Dict.hasKey, Dict.get?, h1] using h
      simp only [Dict.insert, if_neg h1, List.cons_append, List.cons.injEq, true_and]
      exact Dict.insert_of_not_hasKey rest k v h2

theorem Dict.get?_updateWith (ps : List (String × Val)) (d : Dict) (k : String) :
    Dict.get? (Dict.updateWith d ps) k =
      match lastVal ps k with
      | some v => some v
      | none => Dict.get? d k := by
  induction ps generalizing d with
  | nil => simp [Dict.updateWith, lastVal]
  | cons p rest ih =>
      have step : Dict.updateWith d (p :: rest) = Dict.updateWith (Dict.insert d p.1 p.2) rest := rfl
      rw [step, ih]
      simp only [lastVal]
      cases h : lastVal rest k with
      | some v => simp
      | none =>
          simp only [Dict.get?_insert]
          by_cases hpk : p.1 = k <;> simp [hpk]

theorem lastVal_isSome (ps : List (String × Val)) (k : String) :
    (lastVal ps k).isSome = ps.any (fun p => p.1 = k) := by
  induction ps with
  | nil => simp [lastVal]
  | cons p rest ih =>
      simp only [lastVal, List.any_cons]
      cases h : lastVal rest k with
      | some v =>
          rw [h] at ih
          simp only [Option.isSome_some] at ih
          simp [← ih]
      | none =>
          rw [h] at ih
          simp only [Option.isSome_none] at ih
          by_cases hpk : p.1 = k
          · simp [hpk]
          · simp [hpk, ← ih]

theorem lastVal_eq_none_of_not_mem (ps : List (String × Val)) (k : String)
    (h : ps.any (fun p => p.1 = k) = false) : lastVal ps k = none := by
  have := lastVal_isSome ps k
  rw [h] at this
  exact Option.not_isSome_iff_eq_none.mp (by simp [this])

theorem lastVal_eq_get?_of_nodup (ps : List (String × Val)) (k : String)
    (h : (ps.map Prod.fst).Nodup) : lastVal ps k = Dict.get? ps k := by
  induction ps with
  | nil => rfl
  | cons p rest ih =>
      simp only [List.map_cons, List.nodup_cons] at h
      obtain ⟨hp, hrest⟩ := h
      simp only [lastVal, Dict.get?]
      by_cases hpk : p.1 = k
      · subst hpk
        have : rest.any (fun q => q.1 = p.1) = false := by
          simp only [List.any_eq_false, decide_eq_true_eq]
          intro q hq
          exact fun hq1 => hp (hq1 ▸ List.mem_map_of_mem Prod.fst hq)
        rw [lastVal_eq_none_of_not_mem rest p.1 this]
        simp
      · rw [ih hrest]
        cases hg : Dict.get? rest k <;> simp [hpk, hg]

theorem Dict.keys_insert (d : Dict) (k : String) (v : Val) :
    Dict.keys (Dict.insert d k v) =
      if Dict.hasKey d k then Dict.keys d else Dict.keys d ++ [k] := by
  induction d with
  | nil => simp [Dict.insert, Dict.keys, Dict.hasKey, Dict.get?]
  | cons p rest ih =>
      by_cases h : p.1 = k
      · obtain ⟨k2, v2⟩ := p
        simp only at h
        subst h
        simp [Dict.insert, Dict.keys, Dict.hasKey, Dict.get?]
      · obtain ⟨k2, v2⟩ := p
        simp only at h
        simp only [Dict.insert, if_neg h, Dict.keys, List.map_cons] at *
        have hh : Dict.hasKey ((k2, v2) :: rest) k = Dict.hasKey rest k := by
          simp [Dict.hasKey, Dict.get?, h]
        rw [hh]
        by_cases h2 : Dict.hasKey rest k
        · simp [h2] at ih; simp [h2, Dict.keys, ih]
        · simp only [Bool.not_eq_true] at h2
          simp [h2] at ih; simp [h2, Dict.keys, ih]

theorem Dict.hasKey_iff_mem_keys (d : Dict) (k : String) :
    Dict.hasKey d k = true ↔ k ∈ Dict.keys d := by
  induction d with
  | nil => simp [Dict.hasKey, Dict.get?, Dict.keys]
  | cons p rest ih =>
      simp only [Dict.hasKey, Dict.get?, Dict.keys, List.map_cons, List.mem_cons]
      by_cases h : p.1 = k
      · simp [h]
      · simp only [if_neg h]
        constructor
        · intro hs; exact Or.inr ((ih).mp hs)
        · intro hor
          rcases hor with h1 | h2
          · exact absurd h1.symm h
          · exact (ih).mpr h2

theorem Dict.keysNodup_insert (d : Dict) (k : String) (v : Val)
    (h : (Dict.keys d).Nodup) : (Dict.keys (Dict.insert d k v)).Nodup := by
  rw [Dict.keys_insert]
  by_cases hk : Dict.hasKey d k
  · simpa [hk]
  · simp only [Bool.not_eq_true] at hk
    simp only [hk, Bool.false_eq_true, if_false, List.nodup_append]
    refine ⟨h, List.nodup_singleton k, ?_⟩
    intro a ha hb
    simp only [List.mem_singleton] at hb
    subst hb
    have := (Dict.hasKey_iff_mem_keys d a).mpr ha
    rw [hk] at this
    exact absurd this (by simp)

theorem Dict.keysNodup_updateWith (ps : List (String × Val)) (d : Dict)
    (h : (Dict.keys d).Nodup) : (Dict.keys (Dict.updateWith d ps)).Nodup := by
  induction ps generalizing d with
  | nil => exact h
  | cons p rest ih =>
      exact ih (Dict.insert d p.1 p.2) (Dict.keysNodup_insert d p.1 p.2 h)

theorem Dict.updateWith_eq_append (ps : List (String × Val)) (d : Dict)
    (hnodup : (ps.map Prod.fst).Nodup)
    (hdisj : ∀ p ∈ ps, Dict.hasKey d p.1 = false) :
    Dict.updateWith d ps = d ++ ps := by
  induction ps generalizing d with
  | nil => simp [Dict.updateWith]
  | cons p rest ih =>
      have step : Dict.updateWith d (p :: rest) = Dict.updateWith (Dict.insert d p.1 p.2) rest := rfl
      rw [step]
      have hins : Dict.insert d p.1 p.2 = d ++ [(p.1, p.2)] :=
        Dict.insert_of_not_hasKey d p.1 p.2 (hdisj p (List.mem_cons_self p rest))
      simp only [List.map_cons, List.nodup_cons] at hnodup
      obtain ⟨hp, hrest⟩ := hnodup
      rw [hins, ih (d ++ [(p.1, p.2)]) hrest]
      · simp
      · intro q hq
        rw [Dict.hasKey_append]
        have h1 : Dict.hasKey d q.1 = false := hdisj q (List.mem_cons_of_mem p hq)
        have h2 : Dict.hasKey [(p.1, p.2)] q.1 = false := by
          simp only [Dict.hasKey, Dict.get?]
          have : ¬ (p.1 = q.1) := fun hh => hp (hh ▸ List.mem_map_of_mem Prod.fst hq)
          simp [this]
        simp [h1, h2]

theorem map_fst_zip_take (l1 : List String) (l2 : List Val) :
    (List.zip l1 l2).map Prod.fst = l1.take l2.length := by
  induction l1 generalizing l2 with
  | nil => simp
  | cons a l1 ih =>
      cases l2 with
      | nil => simp
      | cons b l2 => simp [List.zip_cons_cons, ih]

theorem pyDictOfZip_eq_zip (cols : List String) (vals : List Val)
    (h : cols.Nodup) : pyDictOfZip cols vals = List.zip cols vals := by
  unfold pyDictOfZip
  rw [Dict.updateWith_eq_append]
  · simp
  · rw [map_fst_zip_take]
    exact (List.take_sublist _ _).nodup h
  · intro p _
    simp [Dict.hasKey, Dict.get?]

theorem get?_zip_of_mem (l1 : List String) (l2 : List Val) (a : String) (b : Val)
    (hnodup : l1.Nodup) (hmem : (a, b) ∈ List.zip l1 l2) :
    Dict.get? (List.zip l1 l2) a = some b := by
  induction l1 generalizing l2 with
  | nil => simp at hmem
  | cons x l1 ih =>
      cases l2 with
      | nil => simp at hmem
      | cons y l2 =>
          simp only [List.zip_cons_cons, List.mem_cons] at hmem
          simp only [List.nodup_cons] at hnodup
          obtain ⟨hx, hl1⟩ := hnodup
          rcases hmem with h1 | h2
          · obtain ⟨ha, hb⟩ := Prod.ext_iff.mp h1
            have ha' : a = x := ha
            have hb' : b = y := hb
            subst ha'
            subst hb'
            simp [Dict.get?]
          · have hamem : a ∈ l1 := (List.of_mem_zip h2).1
            have hax : ¬ (x = a) := fun hh => hx (hh ▸ hamem)
            simp only [List.zip_cons_cons, Dict.get?, if_neg hax]
            exact ih l2 hl1 h2

theorem map_get?_zip (cols : List String) (vals : List Val)
    (hnodup : cols.Nodup) (hlen : vals.length = cols.length) :
    cols.map (fun c => (Dict.get? (List.zip cols vals) c).getD .vnull) = vals := by
  induction cols generalizing vals with
  | nil => cases vals with
      | nil => simp
      | cons b l => simp at hlen
  | cons a cols ih =>
      cases vals with
      | nil => simp at hlen
      | cons b vals =>
          simp only [List.nodup_cons] at hnodup
          obtain ⟨ha, hcols⟩ := hnodup
          simp only [List.length_cons, Nat.succ.injEq] at hlen
          have hmapeq : cols.map (fun c => (Dict.get? ((a, b) :: List.zip cols vals) c).getD .vnull)
              = cols.map (fun c => (Dict.get? (List.zip cols vals) c).getD .vnull) := by
            apply List.map_congr_left
            intro c hc
            have hac : ¬ (a = c) := fun hh => ha (hh ▸ hc)
            simp [Dict.get?, hac]
          simp only [List.zip_cons_cons, List.map_cons, List.cons.injEq]
          constructor
          · simp [Dict.get?]
          · rw [hmapeq]
            exact ih vals hcols hlen

theorem zip_map_get?_of_keys (row : Dict) (hnodup : (Dict.keys row).Nodup) :
    List.zip (Dict.keys row) ((Dict.keys row).map (fun c => (Dict.get? row c).getD .vnull))
      = row := by
  induction row with
  | nil => simp [Dict.keys]
  | cons p rest ih =>
      obtain ⟨k, v⟩ := p
      simp only [Dict.keys, List.map_cons] at hnodup ⊢
      simp only [List.nodup_cons] at hnodup
      obtain ⟨hk, hrest⟩ := hnodup
      have hmapeq : (rest.map Prod.fst).map (fun c => (Dict.get? ((k, v) :: rest) c).getD .vnull)
          = (rest.map Prod.fst).map (fun c => (Dict.get? rest c).getD .vnull) := by
        apply List.map_congr_left
        intro c hc
        have hkc : ¬ (k = c) := fun hh => hk (hh ▸ hc)
        simp [Dict.get?, hkc]
      simp only [List.zip_cons_cons, List.cons.injEq]
      constructor
      · simp [Dict.get?]
      · rw [hmapeq]
        exact ih hrest

theorem buildUniqRow_ok_eq : ∀ (value : Dict) (pairs : List (String × Val)) (row0 row : Row),
    buildUniqRow value pairs row0 = .ok row → row = Dict.updateWith row0 pairs
  | _, [], row0, row, h => by
      simp only [buildUniqRow] at h
      cases h
      rfl
  | value, nk :: rest, row0, row, h => by
      cases hg : Dict.get? value nk.1 with
      | some v =>
          simp only [buildUniqRow, hg] at h
          by_cases hne : nk.2 = v
          · rw [if_neg (fun hh => hh hne)] at h
            exact buildUniqRow_ok_eq value rest (Dict.insert row0 nk.1 nk.2) row h
          · rw [if_pos hne] at h
            exact Except.noConfusion h
      | none =>
          simp only [buildUniqRow, hg] at h
          exact buildUniqRow_ok_eq value rest (Dict.insert row0 nk.1 nk.2) row h

theorem buildUniqRow_ok_of_no_conflict : ∀ (value : Dict) (pairs : List (String × Val)) (row0 : Row),
    (∀ p ∈ pairs, ∀ v, Dict.get? value p.1 = some v → v = p.2) →
    buildUniqRow value pairs row0 = .ok (Dict.updateWith row0 pairs)
  | _, [], row0, _ => by simp [buildUniqRow, Dict.updateWith]
  | value, nk :: rest, row0, h => by
      cases hg : Dict.get? value nk.1 with
      | some v =>
          have hv : v = nk.2 := h nk (List.mem_cons_self nk rest) v hg
          simp only [buildUniqRow, hg]
          rw [if_neg (fun hh => hh hv.symm)]
          exact buildUniqRow_ok_of_no_conflict value rest (Dict.insert row0 nk.1 nk.2)
            (fun p hp => h p (List.mem_cons_of_mem nk hp))
      | none =>
          simp only [buildUniqRow, hg]
          exact buildUniqRow_ok_of_no_conflict value rest (Dict.insert row0 nk.1 nk.2)
            (fun p hp => h p (List.mem_cons_of_mem nk hp))

theorem buildUniqRow_error_of_conflict :
    ∀ (value : Dict) (pairs : List (String × Val)) (row0 : Row),
    (∃ p ∈ pairs, ∃ v, Dict.get? value p.1 = some v ∧ v ≠ p.2) →
    ∃ msg, buildUniqRow value pairs row0 = .error msg
  | _, [], _, h => by
      obtain ⟨p, hp, _⟩ := h
      simp at hp
  | value, nk :: rest, row0, h => by
      obtain ⟨p, hp, v, hv, hvne⟩ := h
      rcases List.mem_cons.mp hp with h1 | h2
      · subst h1
        simp only [buildUniqRow, hv]
        rw [if_pos (fun hh : p.2 = v => hvne hh.symm)]
        exact ⟨_, rfl⟩
      · cases hg : Dict.get? value nk.1 with
        | some w =>
            simp only [buildUniqRow, hg]
            by_cases hne : nk.2 = w
            · rw [if_neg (fun hh => hh hne)]
              exact buildUniqRow_error_of_conflict value rest (Dict.insert row0 nk.1 nk.2)
                ⟨p, h2, v, hv, hvne⟩
            · rw [if_pos hne]
              exact ⟨_, rfl⟩
        | none =>
            simp only [buildUniqRow, hg]
            exact buildUniqRow_error_of_conflict value rest (Dict.insert row0 nk.1 nk.2)
              ⟨p, h2, v, hv, hvne⟩

theorem buildUniqRow_ok_no_conflict :
    ∀ (value : Dict) (pairs : List (String × Val)) (row0 row : Row),
    buildUniqRow value pairs row0 = .ok row →
    ∀ p ∈ pairs, ∀ v, Dict.get? value p.1 = some v → v = p.2
  | _, [], _, _, _ => by simp
  | value, nk :: rest, row0, row, h => by
      intro p hp v hv
      cases hg : Dict.get? value nk.1 with
      | some w =>
          simp only [buildUniqRow, hg] at h
          by_cases hne : nk.2 = w
          · rw [if_neg (fun hh => hh hne)] at h
            rcases List.mem_cons.mp hp with h1 | h2
            · subst h1
              rw [hg] at hv
              cases hv
              exact hne.symm
            · exact buildUniqRow_ok_no_conflict value rest _ row h p h2 v hv
          · rw [if_pos hne] at h
            exact Except.noConfusion h
      | none =>
          simp only [buildUniqRow, hg] at h
          rcases List.mem_cons.mp hp with h1 | h2
          · subst h1
            rw [hg] at hv
            exact Option.noConfusion hv
          · exact buildUniqRow_ok_no_conflict value rest _ row h p h2 v hv

theorem lastVal_dataUpdates (columns : List String) (value : Dict) (c : String) :
    lastVal (dataUpdates columns value) c =
      if c ∈ columns then Dict.get? value c else none := by
  induction columns with
  | nil => simp [dataUpdates, lastVal]
  | cons n rest ih =>
      cases hg : Dict.get? value n with
      | some v =>
          have hdu : dataUpdates (n :: rest) value = (n, v) :: dataUpdates rest value := by
            simp [dataUpdates, hg]
          rw [hdu]
          simp only [lastVal, ih]
          by_cases hmem : c ∈ rest
          · cases hgc : Dict.get? value c with
            | some w => simp [hmem, hgc]
            | none =>
                by_cases hnc : n = c
                · rw [hnc] at hg
                  rw [hg] at hgc
                  exact Option.noConfusion hgc
                · simp [hmem, hgc, hnc]
          · by_cases hnc : n = c
            · subst hnc
              simp [hmem, hg]
            · have hcn : ¬ (c = n) := fun h => hnc h.symm
              simp [hmem, hcn, hnc]
      | none =>
          have hdu : dataUpdates (n :: rest) value = dataUpdates rest value := by
            simp [dataUpdates, hg]
          rw [hdu, ih]
          by_cases hnc : n = c
          · rw [hnc] at hg
            by_cases hmem : c ∈ rest <;> simp [hmem, hnc, hg]
          · have hcn : ¬ (c = n) := fun h => hnc h.symm
            by_cases hmem : c ∈ rest <;> simp [hmem, hcn]

theorem build_row_ok_elim (table : BaseTableConfig) (key : List Val) (value : Dict)
    (row : Row) (h : BaseRelationalDbCache.build_row table key value = .ok row) :
    row = Dict.updateWith (Dict.updateWith [] (List.zip table.uniq_columns key))
            (dataUpdates table.columns value)
    ∧ (∀ p ∈ List.zip table.uniq_columns key, ∀ v, Dict.get? value p.1 = some v → v = p.2) := by
  unfold BaseRelationalDbCache.build_row at h
  cases hb : buildUniqRow value (List.zip table.uniq_columns key) [] with
  | error e =>
      rw [hb] at h
      exact Except.noConfusion h
  | ok row1 =>
      rw [hb] at h
      simp only [bind, Except.bind, pure, Except.pure, Except.ok.injEq] at h
      constructor
      · rw [← h]
        rw [buildUniqRow_ok_eq value _ [] row1 hb]
      · exact buildUniqRow_ok_no_conflict value _ [] row1 hb

theorem build_row_error_of_conflict (table : BaseTableConfig) (key : List Val) (value : Dict)
    (h : ∃ p ∈ List.zip table.uniq_columns key, ∃ v, Dict.get? value p.1 = some v ∧ v ≠ p.2) :
    ∃ msg, BaseRelationalDbCache.build_row table key value = .error msg := by
  obtain ⟨msg, hmsg⟩ := buildUniqRow_error_of_conflict value (List.zip table.uniq_columns key) [] h
  refine ⟨msg, ?_⟩
  unfold BaseRelationalDbCache.build_row
  rw [hmsg]
  rfl

theorem build_row_ok_of_no_conflict (table : BaseTableConfig) (key : List Val) (value : Dict)
    (h : ∀ p ∈ List.zip table.uniq_columns key, ∀ v, Dict.get? value p.1 = some v → v = p.2) :
    BaseRelationalDbCache.build_row table key value =
      .ok (Dict.updateWith (Dict.updateWith [] (List.zip table.uniq_columns key))
            (dataUpdates table.columns value)) := by
  unfold BaseRelationalDbCache.build_row
  rw [buildUniqRow_ok_of_no_conflict value _ [] h]
  rfl

/-- Lookup in a row built by `build_row`: a data column supplied by the
value wins; otherwise the unique-column assignment; otherwise absent. -/
theorem build_row_get? (table : BaseTableConfig) (key : List Val) (value : Dict) (row : Row)
    (h : BaseRelationalDbCache.build_row table key value = .ok row) (c : String) :
    Dict.get? row c =
      if c ∈ table.columns ∧ (Dict.get? value c).isSome then Dict.get? value c
      else match lastVal (List.zip table.uniq_columns key) c with
           | some v => some v
           | none => none := by
  obtain ⟨hrow, _⟩ := build_row_ok_elim table key value row h
  rw [hrow, Dict.get?_updateWith, lastVal_dataUpdates]
  by_cases hmem : c ∈ table.columns
  · cases hgc : Dict.get? value c with
    | some v => simp [hmem, hgc, Dict.get?_updateWith]
    | none =>
        simp only [hmem, hgc, if_pos, true_and, Option.isSome_none]
        rw [Dict.get?_updateWith]
        simp [Dict.get?]
  · simp only [hmem, false_and, if_false]
    rw [Dict.get?_updateWith]
    simp [Dict.get?]

/-- A row built by `build_row` satisfies the WHERE clause of its own key. -/
theorem build_row_matches (table : BaseTableConfig) (key : List Val) (value : Dict) (row : Row)
    (hnodup : table.uniq_columns.Nodup)
    (h : BaseRelationalDbCache.build_row table key value = .ok row) :
    rowMatches table.uniq_columns key row = true := by
  obtain ⟨_, hnoconf⟩ := build_row_ok_elim table key value row h
  unfold rowMatches
  rw [List.all_eq_true]
  intro nk hnk
  have hz : Dict.get? (List.zip table.uniq_columns key) nk.1 = some nk.2 := by
    obtain ⟨n, k⟩ := nk
    exact get?_zip_of_mem _ _ _ _ hnodup hnk
  have hznodup : ((List.zip table.uniq_columns key).map Prod.fst).Nodup := by
    rw [map_fst_zip_take]
    exact (List.take_sublist _ _).nodup hnodup
  rw [build_row_get? table key value row h nk.1]
  by_cases hmem : nk.1 ∈ table.columns ∧ (Dict.get? value nk.1).isSome
  · obtain ⟨hc, hs⟩ := hmem
    cases hgv : Dict.get? value nk.1 with
    | none => rw [hgv] at hs; simp at hs
    | some v =>
        have := hnoconf nk hnk v hgv
        simp [hc, hgv, this]
  · rw [if_neg hmem]
    rw [lastVal_eq_get?_of_nodup _ _ hznodup, hz]
    simp

/-- The key set of a row built by `build_row`: exactly the zipped unique
columns plus the data columns the value supplies. -/
theorem build_row_hasKey (table : BaseTableConfig) (key : List Val) (value : Dict) (row : Row)
    (h : BaseRelationalDbCache.build_row table key value = .ok row) (c : String) :
    Dict.hasKey row c =
      ((List.zip table.uniq_columns key).any (fun p => p.1 = c)
        || (table.columns.contains c && Dict.hasKey value c)) := by
  rw [Dict.hasKey, build_row_get? table key value row h c]
  by_cases hmem : c ∈ table.columns ∧ (Dict.get? value c).isSome
  · obtain ⟨hc, hs⟩ := hmem
    simp only [hc, hs, and_self, if_true]
    simp [Dict.hasKey, hs, hc]
  · rw [if_neg hmem]
    cases hlv : lastVal (List.zip table.uniq_columns key) c with
    | some v =>
        have : (lastVal (List.zip table.uniq_columns key) c).isSome = true := by simp [hlv]
        rw [lastVal_isSome] at this
        simp [this]
    | none =>
        have hany := lastVal_isSome (List.zip table.uniq_columns key) c
        rw [hlv] at hany
        simp only [Option.isSome_none] at hany
        rw [Classical.not_and_iff_or_not_not] at hmem
        rcases hmem with hm | hm
        · have hcont : table.columns.contains c = false := by simp [hm]
          simp only [← hany, hcont, Bool.false_and, Bool.false_or, Option.isSome_none]
        · have hhk : Dict.hasKey value c = false := by
            simp only [Dict.hasKey]
            simpa using hm
          simp [← hany, hhk]

theorem applyUpsert_no_match (uniq : List String) (key : List Val) (assigns : Dict)
    (tbl : Table) (h : tbl.any (rowMatches uniq key) = false) :
    applyUpsert uniq key assigns tbl = tbl ++ [assigns] := by
  simp [applyUpsert, h]

theorem applyUpsert_single_match (uniq : List String) (key : List Val) (assigns : Dict)
    (r : Row) (h : rowMatches uniq key r = true) :
    applyUpsert uniq key assigns [r] = [Dict.updateWith r assigns] := by
  simp [applyUpsert, h]

theorem getTable_setTable (db : Database) (t : String) (tbl : Table) :
    Database.getTable (Database.setTable db t tbl) t = tbl := by
  induction db with
  | nil => simp [Database.setTable, Database.getTable, List.find?]
  | cons p rest ih =>
      by_cases h : p.1 = t
      · simp [Database.setTable, h, Database.getTable, List.find?]
      · simp only [Database.setTable, if_neg h]
        simp only [Database.getTable, List.find?_cons] at ih ⊢
        have : (decide (p.1 = t)) = false := by simp [h]
        rw [this]
        simpa [Database.getTable] using ih

theorem hasTable_setTable (db : Database) (t : String) (tbl : Table) :
    Database.hasTable (Database.setTable db t tbl) t = true := by
  induction db with
  | nil => simp [Database.setTable, Database.hasTable, List.find?]
  | cons p rest ih =>
      by_cases h : p.1 = t
      · simp [Database.setTable, h, Database.hasTable, List.find?]
      · simp only [Database.setTable, if_neg h]
        simp only [Database.hasTable, List.find?_cons] at ih ⊢
        have : (decide (p.1 = t)) = false := by simp [h]
        rw [this]
        exact ih

theorem regGet?_append_some (l l2 : List (String × RelationalDbScopeConfig)) (k : String)
    (c : RelationalDbScopeConfig) (h : regGet? l k = some c) :
    regGet? (l ++ l2) k = some c := by
  induction l with
  | nil => simp [regGet?] at h
  | cons p rest ih =>
      simp only [regGet?, List.cons_append] at h ⊢
      by_cases hp : p.1 = k
      · rw [if_pos hp] at h ⊢
        exact h
      · rw [if_neg hp] at h ⊢
        exact ih h

theorem regGet?_append_isSome (l l2 : List (String × RelationalDbScopeConfig)) (k : String)
    (h : (regGet? l k).isSome = true) : (regGet? (l ++ l2) k).isSome = true := by
  cases hg : regGet? l k with
  | none => rw [hg] at h; simp at h
  | some c => rw [regGet?_append_some l l2 k c hg]; rfl

theorem regGet?_append_self (l : List (String × RelationalDbScopeConfig)) (k : String)
    (c : RelationalDbScopeConfig) :
    (regGet? (l ++ [(k, c)]) k).isSome = true := by
  induction l with
  | nil => simp [regGet?]
  | cons p rest ih =>
      simp only [regGet?, List.cons_append]
      by_cases hp : p.1 = k
      · rw [if_pos hp]
        rfl
      · rw [if_neg hp]
        exact ih

theorem regGet?_append_new (l : List (String × RelationalDbScopeConfig)) (k : String)
    (c : RelationalDbScopeConfig) (h : regGet? l k = none) :
    regGet? (l ++ [(k, c)]) k = some c := by
  induction l with
  | nil => simp [regGet?]
  | cons p rest ih =>
      simp only [regGet?, List.cons_append] at h ⊢
      by_cases hp : p.1 = k
      · rw [if_pos hp] at h
        exact Option.noConfusion h
      · rw [if_neg hp] at h ⊢
        exact ih h

theorem add_scope_ok_elim (st : RelationalDbCache) (c : RelationalDbScopeConfig)
    (st' : RelationalDbCache) (h : st._add_scope c = .ok st') :
    st' = { st with scopes := st.scopes ++ [(c.scope, c)],
                    tables := st.tables ++ [(c.table, c)] }
    ∧ regGet? st.scopes c.scope = none ∧ regGet? st.tables c.table = none := by
  unfold RelationalDbCache._add_scope at h
  cases hs : regGet? st.scopes c.scope with
  | some x =>
      rw [hs] at h
      simp at h
  | none =>
      rw [hs] at h
      cases ht : regGet? st.tables c.table with
      | some x =>
          rw [ht] at h
          simp at h
      | none =>
          rw [ht] at h
          simp only [Option.isSome_none, Bool.false_eq_true, if_false, Except.ok.injEq] at h
          exact ⟨h.symm, rfl, rfl⟩

theorem add_scope_error_of_dup (st : RelationalDbCache) (c : RelationalDbScopeConfig)
    (h : (regGet? st.scopes c.scope).isSome = true ∨ (regGet? st.tables c.table).isSome = true) :
    ∃ msg, st._add_scope c = .error msg := by
  unfold RelationalDbCache._add_scope
  by_cases hs : (regGet? st.scopes c.scope).isSome = true
  · rw [if_pos hs]
    exact ⟨_, rfl⟩
  · rcases h with h1 | h2
    · exact absurd h1 hs
    · simp only [Bool.not_eq_true] at hs
      rw [hs]
      simp only [Bool.false_eq_true, if_false]
      rw [if_pos h2]
      exact ⟨_, rfl⟩

theorem foldlM_except_append {α σ : Type} (f : σ → α → Except String σ)
    (l1 l2 : List α) (init : σ) :
    (l1 ++ l2).foldlM f init = (l1.foldlM f init >>= fun s => l2.foldlM f s) := by
  induction l1 generalizing init with
  | nil => rfl
  | cons a l1 ih =>
      simp only [List.cons_append, List.foldlM_cons]
      cases h : f init a with
      | error e => rfl
      | ok s => exact ih s

theorem fold_add_preserves (l : List RelationalDbScopeConfig)
    (st st' : RelationalDbCache)
    (h : l.foldlM RelationalDbCache._add_scope st = .ok st') (k : String) :
    ((regGet? st.scopes k).isSome = true → (regGet? st'.scopes k).isSome = true)
    ∧ ((regGet? st.tables k).isSome = true → (regGet? st'.tables k).isSome = true) := by
  induction l generalizing st with
  | nil =>
      simp only [List.foldlM_nil] at h
      cases h
      exact ⟨id, id⟩
  | cons c rest ih =>
      simp only [List.foldlM_cons] at h
      cases ha : st._add_scope c with
      | error e =>
          rw [ha] at h
          exact Except.noConfusion h
      | ok st1 =>
          rw [ha] at h
          obtain ⟨hst1, _, _⟩ := add_scope_ok_elim st c st1 ha
          have h1 := (ih st1 h).1
          have h2 := (ih st1 h).2
          constructor
          · intro hk
            apply h1
            rw [hst1]
            exact regGet?_append_isSome _ _ _ hk
          · intro hk
            apply h2
            rw [hst1]
            exact regGet?_append_isSome _ _ _ hk

theorem normalize_single_scalar (cols : List String) (v : Val) (h : cols.length = 1) :
    normalize_columns_values (.scalar v) cols = .ok [v] := by
  unfold normalize_columns_values
  rw [h]
  simp

theorem normalize_multi_scalar_error (cols : List String) (v : Val) (h : 1 < cols.length) :
    normalize_columns_values (.scalar v) cols = .error "value should be a list or tuple" := by
  unfold normalize_columns_values
  simp only [if_pos h]

theorem normalize_multi_tup_error (cols : List String) (l : List Val)
    (h : 1 < cols.length) (hlen : l.length ≠ cols.length) :
    normalize_columns_values (.tup l) cols = .error "value size mismatch" := by
  unfold normalize_columns_values
  simp only [if_pos h]
  rw [if_pos hlen]

theorem normalize_length (key : CacheKey) (cols : List String) (ks : List Val)
    (h : normalize_columns_values key cols = .ok ks) (hne : cols ≠ []) :
    ks.length = cols.length := by
  unfold normalize_columns_values at h
  by_cases hgt : cols.length > 1
  · rw [if_pos hgt] at h
    cases key with
    | scalar v => exact Except.noConfusion h
    | tup l =>
        dsimp only at h
        by_cases hl : l.length = cols.length
        · rw [if_neg (by simp [hl])] at h
          cases h
          exact hl
        · rw [if_pos hl] at h
          exact Except.noConfusion h
  · rw [if_neg hgt] at h
    have h1 : cols.length = 1 := by
      cases cols with
      | nil => exact absurd rfl hne
      | cons a rest =>
          simp only [List.length_cons, gt_iff_lt] at hgt ⊢
          omega
    cases key with
    | scalar v =>
        cases h
        simp [h1]
    | tup l =>
        cases h
        simp [h1]

theorem set_ok_elim (key : List Val) (v : CacheValue) (cfg : BaseTableConfig)
    (db db' : Database) (h : BaseRelationalDbCache._set key v cfg db = .ok db') :
    ∃ d row, cfg.value_adapter.build_column_values v = .ok d
      ∧ BaseRelationalDbCache.build_row cfg key d = .ok row
      ∧ cfg.uniq_columns.length = key.length
      ∧ db' = Database.setTable db cfg.table
          (applyUpsert cfg.uniq_columns key row (Database.getTable db cfg.table)) := by
  unfold BaseRelationalDbCache._set at h
  cases hb : cfg.value_adapter.build_column_values v with
  | error e =>
      rw [hb] at h
      exact Except.noConfusion h
  | ok d =>
      rw [hb] at h
      simp only [bind, Except.bind] at h
      cases hr : BaseRelationalDbCache.build_row cfg key d with
      | error e =>
          rw [hr] at h
          exact Except.noConfusion h
      | ok row =>
          rw [hr] at h
          dsimp only at h
          by_cases hlen : cfg.uniq_columns.length = key.length
          · rw [if_neg (by simp [hlen])] at h
            simp only [pure, Except.pure, Except.ok.injEq] at h
            exact ⟨d, row, rfl, hr, hlen, h.symm⟩
          · rw [if_pos hlen] at h
            simp only [throw, throwThe, MonadExceptOf.throw] at h
            exact Except.noConfusion h

theorem set_ok_intro (key : List Val) (v : CacheValue) (cfg : BaseTableConfig)
    (db : Database) (d : Dict) (row : Row)
    (hb : cfg.value_adapter.build_column_values v = .ok d)
    (hr : BaseRelationalDbCache.build_row cfg key d = .ok row)
    (hlen : cfg.uniq_columns.length = key.length) :
    BaseRelationalDbCache._set key v cfg db = .ok (Database.setTable db cfg.table
      (applyUpsert cfg.uniq_columns key row (Database.getTable db cfg.table))) := by
  unfold BaseRelationalDbCache._set
  rw [hb]
  simp only [bind, Except.bind]
  rw [hr]
  dsimp only
  rw [if_neg (by simp [hlen])]
  rfl

theorem build_row_keys_nodup (table : BaseTableConfig) (key : List Val) (value : Dict)
    (row : Row) (h : BaseRelationalDbCache.build_row table key value = .ok row) :
    (Dict.keys row).Nodup := by
  obtain ⟨hrow, _⟩ := build_row_ok_elim table key value row h
  rw [hrow]
  exact Dict.keysNodup_updateWith _ _ (Dict.keysNodup_updateWith _ _ (by simp [Dict.keys]))

theorem selectRow_singleton (uniq : List String) (ks : List Val) (r : Row)
    (h : rowMatches uniq ks r = true) : selectRow uniq ks [r] = some r := by
  unfold selectRow
  simp [List.find?, h]

theorem rowMatches_all (uniq : List String) (ks : List Val) (r : Row)
    (h : rowMatches uniq ks r = true) :
    ∀ nk ∈ List.zip uniq ks, Dict.get? r nk.1 = some nk.2 := by
  intro nk hnk
  unfold rowMatches at h
  rw [List.all_eq_true] at h
  have := h nk hnk
  simpa using this

theorem rowMatches_updateWith (uniq : List String) (ks : List Val) (r1 r2 : Row)
    (hn2 : (Dict.keys r2).Nodup) (hm2 : rowMatches uniq ks r2 = true) :
    rowMatches uniq ks (Dict.updateWith r1 r2) = true := by
  unfold rowMatches
  rw [List.all_eq_true]
  intro nk hnk
  rw [Dict.get?_updateWith]
  rw [lastVal_eq_get?_of_nodup _ _ hn2]
  rw [rowMatches_all uniq ks r2 hm2 nk hnk]
  simp

theorem get?_updateWith_right (r1 r2 : Row) (c : String)
    (hn2 : (Dict.keys r2).Nodup) (hs : (Dict.get? r2 c).isSome = true) :
    Dict.get? (Dict.updateWith r1 r2) c = Dict.get? r2 c := by
  rw [Dict.get?_updateWith, lastVal_eq_get?_of_nodup _ _ hn2]
  cases hg : Dict.get? r2 c with
  | none => rw [hg] at hs; simp at hs
  | some w => simp

/-- The heart of the overwrite analysis: starting from an empty table,
`_set k v1; _set k v2` and `_set k v2` alone yield the same `_fetch`
result, provided the adapter-built column map of `v2` supplies every
configured data column. -/
theorem fetch_after_two_sets (cfg : BaseTableConfig) (ks : List Val) (v1 v2 : CacheValue)
    (d2 : Dict) (default : CacheValue) (db db1 db2 db2' : Database)
    (hnodup : cfg.uniq_columns.Nodup)
    (hempty : Database.getTable db cfg.table = [])
    (hb2 : cfg.value_adapter.build_column_values v2 = .ok d2)
    (hcols : ∀ c ∈ cfg.columns, (Dict.get? d2 c).isSome = true)
    (h1 : BaseRelationalDbCache._set ks v1 cfg db = .ok db1)
    (h2 : BaseRelationalDbCache._set ks v2 cfg db1 = .ok db2)
    (h2' : BaseRelationalDbCache._set ks v2 cfg db = .ok db2') :
    BaseRelationalDbCache._fetch ks cfg default db2
      = BaseRelationalDbCache._fetch ks cfg default db2' := by
  obtain ⟨dd1, row1, hb1, hr1, hlen, hdb1⟩ := set_ok_elim ks v1 cfg db db1 h1
  obtain ⟨dd2, row2, hb2a, hr2, _, hdb2⟩ := set_ok_elim ks v2 cfg db1 db2 h2
  obtain ⟨dd2b, row2b, hb2b, hr2b, _, hdb2b⟩ := set_ok_elim ks v2 cfg db db2' h2'
  -- both second writes build the same column map and hence the same row
  have hd2a : dd2 = d2 := by
    rw [hb2] at hb2a
    exact (Except.ok.inj hb2a).symm
  have hd2b : dd2b = d2 := by
    rw [hb2] at hb2b
    exact (Except.ok.inj hb2b).symm
  rw [hd2a] at hr2
  rw [hd2b] at hr2b
  have hrow2eq : row2b = row2 := by
    rw [hr2] at hr2b
    exact (Except.ok.inj hr2b).symm
  rw [hrow2eq] at hdb2b
  -- table contents after each write
  have hm1 : rowMatches cfg.uniq_columns ks row1 = true :=
    build_row_matches cfg ks dd1 row1 hnodup hr1
  have hm2 : rowMatches cfg.uniq_columns ks row2 = true :=
    build_row_matches cfg ks d2 row2 hnodup hr2
  have htbl1 : Database.getTable db1 cfg.table = [row1] := by
    rw [hdb1, hempty, applyUpsert_no_match _ _ _ _ (by simp)]
    rw [getTable_setTable]
    rfl
  have htbl2 : Database.getTable db2 cfg.table = [Dict.updateWith row1 row2] := by
    rw [hdb2, htbl1, applyUpsert_single_match _ _ _ _ hm1, getTable_setTable]
  have htbl2b : Database.getTable db2' cfg.table = [row2] := by
    rw [hdb2b, hempty, applyUpsert_no_match _ _ _ _ (by simp), getTable_setTable]
    rfl
  have hn2 : (Dict.keys row2).Nodup := build_row_keys_nodup cfg ks d2 row2 hr2
  have hmU : rowMatches cfg.uniq_columns ks (Dict.updateWith row1 row2) = true :=
    rowMatches_updateWith _ _ _ _ hn2 hm2
  -- the selected data columns agree
  have hsel : selectCols cfg.columns (Dict.updateWith row1 row2) = selectCols cfg.columns row2 := by
    unfold selectCols
    apply List.map_congr_left
    intro c hc
    have hsome2 : (Dict.get? row2 c).isSome = true := by
      rw [build_row_get? cfg ks d2 row2 hr2 c]
      rw [if_pos ⟨hc, hcols c hc⟩]
      exact hcols c hc
    rw [get?_updateWith_right row1 row2 c hn2 hsome2]
  -- compute both fetches
  unfold BaseRelationalDbCache._fetch
  rw [if_neg (by simp [hlen]), htbl2, htbl2b]
  rw [selectRow_singleton _ _ _ hmU, selectRow_singleton _ _ _ hm2]
  rw [if_neg (by simp [hlen])]
  dsimp only
  rw [hsel]

theorem get_scope_config_registered (st : RelationalDbCache) (scope : String)
    (cfg : RelationalDbScopeConfig) (hreg : regGet? st.scopes scope = some cfg) :
    st._get_scope_config scope = .ok (cfg, st) := by
  unfold RelationalDbCache._get_scope_config
  rw [hreg]

theorem public_set_elim (st st' : RelationalDbCache) (scope : String)
    (cfg : RelationalDbScopeConfig) (key : CacheKey) (v : CacheValue)
    (hreg : regGet? st.scopes scope = some cfg)
    (h : st.set key v scope = .ok st') :
    ∃ ks db', normalize_columns_values key cfg.uniq_columns = .ok ks
      ∧ BaseRelationalDbCache._set ks v cfg.toBaseTableConfig st.db = .ok db'
      ∧ st' = { st with db := db' } := by
  unfold RelationalDbCache.set at h
  rw [get_scope_config_registered st scope cfg hreg] at h
  simp only [bind, Except.bind] at h
  cases hn : normalize_columns_values key cfg.uniq_columns with
  | error e =>
      unfold BaseTableConfig.normalize_uniq_column_values at h
      rw [hn] at h
      exact Except.noConfusion h
  | ok ks =>
      unfold BaseTableConfig.normalize_uniq_column_values at h
      rw [hn] at h
      dsimp only at h
      cases hs : BaseRelationalDbCache._set ks v cfg.toBaseTableConfig st.db with
      | error e =>
          rw [hs] at h
          exact Except.noConfusion h
      | ok db' =>
          rw [hs] at h
          simp only [pure, Except.pure, Except.ok.injEq] at h
          exact ⟨ks, db', rfl, hs, h.symm⟩

theorem public_fetch_value (st : RelationalDbCache) (scope : String)
    (cfg : RelationalDbScopeConfig) (key : CacheKey) (default : CacheValue) (ks : List Val)
    (hreg : regGet? st.scopes scope = some cfg)
    (hnorm : normalize_columns_values key cfg.uniq_columns = .ok ks) :
    Except.map Prod.fst (st.fetch key default scope)
      = BaseRelationalDbCache._fetch ks cfg.toBaseTableConfig default st.db := by
  unfold RelationalDbCache.fetch
  rw [get_scope_config_registered st scope cfg hreg]
  simp only [bind, Except.bind]
  unfold BaseTableConfig.normalize_uniq_column_values
  rw [hnorm]
  dsimp only
  cases hf : BaseRelationalDbCache._fetch ks cfg.toBaseTableConfig default st.db with
  | error e => rfl
  | ok v => rfl

theorem public_exists_value (st : RelationalDbCache) (scope : String)
    (cfg : RelationalDbScopeConfig) (key : CacheKey) (ks : List Val)
    (hreg : regGet? st.scopes scope = some cfg)
    (hnorm : normalize_columns_values key cfg.uniq_columns = .ok ks) :
    Except.map Prod.fst (st.exists key scope)
      = BaseRelationalDbCache._exists ks cfg.toBaseTableConfig st.db := by
  unfold RelationalDbCache.exists
  rw [get_scope_config_registered st scope cfg hreg]
  simp only [bind, Except.bind]
  unfold BaseTableConfig.normalize_uniq_column_values
  rw [hnorm]
  dsimp only
  cases hf : BaseRelationalDbCache._exists ks cfg.toBaseTableConfig st.db with
  | error e => rfl
  | ok v => rfl

theorem public_ops_error (st : RelationalDbCache) (scope : String)
    (cfg : RelationalDbScopeConfig) (key : CacheKey) (v default : CacheValue) (msg : String)
    (hreg : regGet? st.scopes scope = some cfg)
    (hnorm : normalize_columns_values key cfg.uniq_columns = .error msg) :
    st.exists key scope = .error msg
    ∧ st.fetch key default scope = .error msg
    ∧ st.set key v scope = .error msg
    ∧ st.pop key scope = .error msg := by
  unfold RelationalDbCache.exists RelationalDbCache.fetch RelationalDbCache.set
    RelationalDbCache.pop
  rw [get_scope_config_registered st scope cfg hreg]
  simp only [bind, Except.bind]
  unfold BaseTableConfig.normalize_uniq_column_values
  rw [hnorm]
  exact ⟨rfl, rfl, rfl, rfl⟩

theorem public_set_value (st : RelationalDbCache) (scope : String)
    (cfg : RelationalDbScopeConfig) (key : CacheKey) (v : CacheValue) (ks : List Val)
    (hreg : regGet? st.scopes scope = some cfg)
    (hnorm : normalize_columns_values key cfg.uniq_columns = .ok ks) :
    st.set key v scope = Except.map (fun db => { st with db := db })
      (BaseRelationalDbCache._set ks v cfg.toBaseTableConfig st.db) := by
  unfold RelationalDbCache.set
  rw [get_scope_config_registered st scope cfg hreg]
  simp only [bind, Except.bind]
  unfold BaseTableConfig.normalize_uniq_column_values
  rw [hnorm]
  dsimp only
  cases hs : BaseRelationalDbCache._set ks v cfg.toBaseTableConfig st.db with
  | error e => rfl
  | ok db' => rfl

theorem public_pop_value (st : RelationalDbCache) (scope : String)
    (cfg : RelationalDbScopeConfig) (key : CacheKey) (ks : List Val)
    (hreg : regGet? st.scopes scope = some cfg)
    (hnorm : normalize_columns_values key cfg.uniq_columns = .ok ks) :
    st.pop key scope = Except.map (fun db => { st with db := db })
      (BaseRelationalDbCache._pop ks cfg.toBaseTableConfig st.db) := by
  unfold RelationalDbCache.pop
  rw [get_scope_config_registered st scope cfg hreg]
  simp only [bind, Except.bind]
  unfold BaseTableConfig.normalize_uniq_column_values
  rw [hnorm]
  dsimp only
  cases hs : BaseRelationalDbCache._pop ks cfg.toBaseTableConfig st.db with
  | error e => rfl
  | ok db' => rfl

theorem zip_any_fst (uniq : List String) (key : List Val) (c : String)
    (hlen : uniq.length = key.length) :
    ((List.zip uniq key).any (fun p => p.1 = c)) = uniq.contains c := by
  induction uniq generalizing key with
  | nil => simp
  | cons a uniq ih =>
      cases key with
      | nil => simp at hlen
      | cons b key =>
          simp only [List.length_cons, Nat.succ.injEq] at hlen
          simp only [List.zip_cons_cons, List.any_cons, List.contains_cons]
          rw [ih key hlen]
          by_cases hac : a = c
          · simp [hac]
          · have hca : ¬ (c = a) := fun h => hac h.symm
            simp [hac, hca]

/-! ### Claim theorems. -/

/-- C3: `SingleTableCache.keys(scope)` is claimed to issue and execute
`SELECT key_columns FROM table WHERE scope_columns = scope`. In the code,
`build_select_operation` asserts `len(config.uniq_columns) == len(key)`,
but `keys` passes only the scope values while `uniq_columns` is
`scope_columns + key_columns`; with non-empty key columns the assert
always fails, so the method raises `AssertionError` before any SQL is
built or executed. -/
theorem C3_single_table_keys_assert (c : SingleTableConfig) (b : SimpleSqlBuilder)
    (scope : CacheKey) (sv : List Val)
    (hnorm : c.normalize_scope_column_values scope = .ok sv)
    (hsv : sv.length = c.scope_columns.length)
    (hkc : c.key_columns ≠ []) :
    ∃ msg, SingleTableCache.keys_operation c b scope = .error msg := by
  unfold SingleTableCache.keys_operation
  rw [hnorm]
  simp only [bind, Except.bind]
  unfold SimpleSqlBuilder.build_select_operation
  dsimp only [SingleTableConfig.toBaseTableConfig]
  have hcond : (c.scope_columns ++ c.key_columns).length ≠ sv.length := by
    rw [List.length_append, hsv]
    have : 0 < c.key_columns.length := List.length_pos.mpr hkc
    omega
  rw [if_pos hcond]
  exact ⟨_, rfl⟩

/-- Witness for C3 at the concrete single-table config
(`scope_columns=('scope',)`, `key_columns=('id',)`). -/
theorem C3_witness :
    ∃ msg, SingleTableCache.keys_operation stcScopeId QmarkSqlBuilder
      (.scalar (.vstr "s")) = .error msg :=
  C3_single_table_keys_assert stcScopeId QmarkSqlBuilder (.scalar (.vstr "s"))
    [.vstr "s"] rfl rfl (by decide)

/-- C7: the positional-numbered builder renders `:N` markers. For
select and upsert the marker index does follow `enumerate(..., 1)`, but
`build_delete_operation` passes `order=1` for every condition, so a
two-column delete renders both markers as `:1` (position 2 is never
rendered as `:2`) while binding an ordered two-value parameter list. -/
theorem C7_numeric_markers :
    NumericSqlBuilder.build_select_operation cfgAB (some [.vstr "x", .vstr "y"]) (-1) none false
      = .ok { statement := "SELECT data FROM t WHERE a = :1 AND b = :2",
              parameters := .plist [.vstr "x", .vstr "y"] }
    ∧ NumericSqlBuilder.build_update_operation cfgAB [.vstr "x", .vstr "y"] [("data", .vstr "v")]
      = .ok { statement := "INSERT INTO t(data,a,b) VALUES (:1,:2,:3)" ++
                " ON CONFLICT(a,b) DO UPDATE SET data=:1,a=:2,b=:3",
              parameters := .plist [.vstr "v", .vstr "x", .vstr "y",
                                    .vstr "v", .vstr "x", .vstr "y"] }
    ∧ NumericSqlBuilder.build_delete_operation cfgAB (some [.vstr "x", .vstr "y"])
      = .ok { statement := "DELETE FROM t WHERE a = :1 AND b = :1",
              parameters := .plist [.vstr "x", .vstr "y"] } :=
  ⟨rfl, rfl, rfl⟩

/-- C8 counterexample: the MySQL builder's column-name extraction does
not return the field at position 0 — on a six-field row with distinct
entries it returns the field at index 4. -/
theorem C8_counterexample :
    MysqlSqlBuilder.get_column_name_from_result introRow = some (.vstr "f4")
    ∧ MysqlSqlBuilder.get_column_name_from_result introRow ≠ introRow.get? 0 :=
  ⟨rfl, by decide⟩

/-- C8 amended: the column-name extraction returns index 0 for the
base/PostgreSQL builder, index 4 for the MySQL builder, and index 1 for
the SQLite builder. -/
theorem C8_amended (a b c d e f : Val) :
    SqlBuilder.get_column_name_from_result [a, b, c, d, e, f] = some a
    ∧ MysqlSqlBuilder.get_column_name_from_result [a, b, c, d, e, f] = some e
    ∧ SqliteSqlBuilder.get_column_name_from_result [a, b, c, d, e, f] = some b :=
  ⟨rfl, rfl, rfl⟩

/-- C9 counterexample: a sequence-adapter value shorter than the column
list does not raise a column-count error — `dict(zip(...))` silently
truncates, and the configuration check accepts the adapter. -/
theorem C9_counterexample :
    (ValueAdapter.sequenceA ["a", "b"] false).build_column_values (.seq [.vint 1])
      = .ok [("a", .vint 1)]
    ∧ BaseTableConfig.check_value_adapter .tuple ["a", "b"]
      = .ok (.sequenceA ["a", "b"] false) :=
  ⟨rfl, rfl⟩

/-- C9 amended: the sequence adapter performs no length validation —
`build_column_values` always succeeds and binds the zip of the column
list with the value, truncated to the shorter of the two; the only
column-count configuration error is raised when selecting the `single`
adapter over a column list whose length is not 1. -/
theorem C9_amended :
    (∀ (cols : List String) (asList : Bool) (v : List Val), cols.Nodup →
       (ValueAdapter.sequenceA cols asList).build_column_values (.seq v)
           = .ok (List.zip cols v)
       ∧ (List.zip cols v).map Prod.fst = cols.take v.length)
    ∧ (∀ cols : List String, cols.length ≠ 1 →
       BaseTableConfig.check_value_adapter .single cols
         = .error "columns length should be 1 when value_adapter is single.")
    ∧ (∀ cols : List String, cols.length = 1 →
       BaseTableConfig.check_value_adapter .single cols
         = .ok (.single (cols.headD ""))) := by
  refine ⟨?_, ?_, ?_⟩
  · intro cols asList v hnodup
    constructor
    · show Except.ok (pyDictOfZip cols v) = _
      rw [pyDictOfZip_eq_zip cols v hnodup]
    · exact map_fst_zip_take cols v
  · intro cols h
    unfold BaseTableConfig.check_value_adapter
    dsimp only
    rw [if_pos h]
  · intro cols h
    unfold BaseTableConfig.check_value_adapter
    dsimp only
    rw [if_neg (show ¬ (cols.length ≠ 1) by simp [h])]

/-- Witness for C9's amended statement at concrete inputs. -/
theorem C9_witness :
    ((ValueAdapter.sequenceA ["a", "b"] false).build_column_values (.seq [.vint 1])
        = .ok (List.zip ["a", "b"] [.vint 1])
      ∧ (List.zip ["a", "b"] [Val.vint 1]).map Prod.fst = ["a", "b"].take 1)
    ∧ BaseTableConfig.check_value_adapter .single ["a", "b"]
        = .error "columns length should be 1 when value_adapter is single."
    ∧ BaseTableConfig.check_value_adapter .single ["a"] = .ok (.single "a") :=
  ⟨C9_amended.1 ["a", "b"] false [.vint 1] (by decide),
   C9_amended.2.1 ["a", "b"] (by decide),
   C9_amended.2.2 ["a"] rfl⟩

/-- C4: the value-adapter round-trip laws, per variant, on well-formed
inputs: the identity adapter round-trips any dict; the single-column
adapter round-trips a scalar against its one-entry row; the sequence
adapter round-trips a value of matching length over distinct columns,
and a row whose keys are exactly the columns. -/
theorem C4_adapter_roundtrip :
    (∀ d : Dict, ValueAdapter.defaultA.build_column_values (.dict d) = .ok d
       ∧ ValueAdapter.defaultA.parse_column_values d = .ok (.dict d))
    ∧ (∀ (col : String) (v : Val),
       (ValueAdapter.single col).build_column_values (.scalar v) = .ok [(col, v)]
       ∧ (ValueAdapter.single col).parse_column_values [(col, v)] = .ok (.scalar v))
    ∧ (∀ (cols : List String) (asList : Bool) (v : List Val),
       cols.Nodup → v.length = cols.length →
       ∃ row, (ValueAdapter.sequenceA cols asList).build_column_values (.seq v) = .ok row
         ∧ (ValueAdapter.sequenceA cols asList).parse_column_values row = .ok (.seq v))
    ∧ (∀ (cols : List String) (asList : Bool) (row : Dict),
       Dict.keys row = cols → cols.Nodup →
       ∃ v, (ValueAdapter.sequenceA cols asList).parse_column_values row = .ok (.seq v)
         ∧ (ValueAdapter.sequenceA cols asList).build_column_values (.seq v) = .ok row) := by
  refine ⟨fun d => ⟨rfl, rfl⟩, fun col v => ⟨rfl, ?_⟩, ?_, ?_⟩
  · unfold ValueAdapter.parse_column_values
    simp [Dict.get?]
  · intro cols asList v hnodup hlen
    refine ⟨List.zip cols v, ?_, ?_⟩
    · show Except.ok (pyDictOfZip cols v) = _
      rw [pyDictOfZip_eq_zip cols v hnodup]
    · unfold ValueAdapter.parse_column_values
      dsimp only
      rw [map_get?_zip cols v hnodup hlen]
  · intro cols asList row hkeys hnodup
    refine ⟨cols.map (fun c => (Dict.get? row c).getD .vnull), rfl, ?_⟩
    show Except.ok (pyDictOfZip cols (cols.map (fun c => (Dict.get? row c).getD .vnull))) = _
    rw [pyDictOfZip_eq_zip _ _ hnodup]
    rw [← hkeys]
    rw [zip_map_get?_of_keys row (hkeys ▸ hnodup)]

/-- Witness for C4 at concrete inputs for each adapter variant. -/
theorem C4_witness :
    (ValueAdapter.defaultA.build_column_values (.dict [("x", .vint 7)])
        = .ok [("x", .vint 7)]
      ∧ ValueAdapter.defaultA.parse_column_values [("x", .vint 7)]
        = .ok (.dict [("x", .vint 7)]))
    ∧ ((ValueAdapter.single "data").build_column_values (.scalar (.vstr "v"))
        = .ok [("data", .vstr "v")]
      ∧ (ValueAdapter.single "data").parse_column_values [("data", .vstr "v")]
        = .ok (.scalar (.vstr "v")))
    ∧ (∃ row, (ValueAdapter.sequenceA ["a", "b"] false).build_column_values
          (.seq [.vint 1, .vint 2]) = .ok row
        ∧ (ValueAdapter.sequenceA ["a", "b"] false).parse_column_values row
          = .ok (.seq [.vint 1, .vint 2]))
    ∧ (∃ v, (ValueAdapter.sequenceA ["a", "b"] true).parse_column_values
          [("a", .vint 1), ("b", .vint 2)] = .ok (.seq v)
        ∧ (ValueAdapter.sequenceA ["a", "b"] true).build_column_values (.seq v)
          = .ok [("a", .vint 1), ("b", .vint 2)]) :=
  ⟨C4_adapter_roundtrip.1 [("x", .vint 7)],
   C4_adapter_roundtrip.2.1 "data" (.vstr "v"),
   C4_adapter_roundtrip.2.2.1 ["a", "b"] false [.vint 1, .vint 2] (by decide) rfl,
   C4_adapter_roundtrip.2.2.2 ["a", "b"] true [("a", .vint 1), ("b", .vint 2)] rfl (by decide)⟩

/-- C1 counterexample: on a registered scope with the default (column
map) adapter, `set(k, {name, comment}); set(k, {name})` followed by
`fetch(k)` returns the *merge* `{name, comment}` — the second write's
upsert only assigns the columns the second value supplies, so the
`comment` column written by v1 survives, and the result differs from v2. -/
theorem C1_counterexample :
    (do
      let st1 ← stAD.set (.scalar (.vstr "k"))
        (.dict [("name", .vstr "a"), ("comment", .vstr "b")]) "a"
      let st2 ← st1.set (.scalar (.vstr "k")) (.dict [("name", .vstr "c")]) "a"
      Except.map Prod.fst (st2.fetch (.scalar (.vstr "k")) (.dict []) "a"))
    = .ok (.dict [("name", .vstr "c"), ("comment", .vstr "b")])
    ∧ (CacheValue.dict [("name", .vstr "c"), ("comment", .vstr "b")]
        ≠ .dict [("name", .vstr "c")]) :=
  ⟨rfl, by decide⟩

/-- C1 amended: after `set(k, v1); set(k, v2)` on a registered scope over
an initially empty table, `fetch(k)` returns the same value as after
`set(k, v2)` alone — the first write leaves no trace — **provided** the
adapter-built column map of v2 supplies every configured data column
(which always holds for the single-column adapter and for a full-length
sequence value; for the default adapter it requires the dict to name
every data column). Columns v2 does not re-supply keep v1's values, as
the counterexample shows. -/
theorem C1_second_write_overwrites (st st1 st2 st2' : RelationalDbCache)
    (cfg : RelationalDbScopeConfig) (scope : String) (key : CacheKey)
    (v1 v2 default : CacheValue) (d2 : Dict)
    (hreg : regGet? st.scopes scope = some cfg)
    (hnodup : cfg.uniq_columns.Nodup)
    (hempty : Database.getTable st.db cfg.table = [])
    (hb2 : cfg.value_adapter.build_column_values v2 = .ok d2)
    (hcols : ∀ c ∈ cfg.columns, (Dict.get? d2 c).isSome = true)
    (h1 : st.set key v1 scope = .ok st1)
    (h2 : st1.set key v2 scope = .ok st2)
    (h2' : st.set key v2 scope = .ok st2') :
    Except.map Prod.fst (st2.fetch key default scope)
      = Except.map Prod.fst (st2'.fetch key default scope) := by
  obtain ⟨ks1, db1, hn1, hs1, hst1⟩ := public_set_elim st st1 scope cfg key v1 hreg h1
  have hreg1 : regGet? st1.scopes scope = some cfg := by rw [hst1]; exact hreg
  obtain ⟨ks2, db2x, hn2, hs2, hst2⟩ := public_set_elim st1 st2 scope cfg key v2 hreg1 h2
  obtain ⟨ks3, db3x, hn3, hs3, hst3⟩ := public_set_elim st st2' scope cfg key v2 hreg h2'
  have hks2 : ks2 = ks1 := by
    rw [hn1] at hn2
    exact (Except.ok.inj hn2).symm
  have hks3 : ks3 = ks1 := by
    rw [hn1] at hn3
    exact (Except.ok.inj hn3).symm
  rw [hks2] at hs2
  rw [hks3] at hs3
  have hreg2 : regGet? st2.scopes scope = some cfg := by rw [hst2]; exact hreg1
  have hreg3 : regGet? st2'.scopes scope = some cfg := by rw [hst3]; exact hreg
  rw [public_fetch_value st2 scope cfg key default ks1 hreg2 hn1]
  rw [public_fetch_value st2' scope cfg key default ks1 hreg3 hn1]
  have hdb2 : st2.db = db2x := by rw [hst2]
  have hdb3 : st2'.db = db3x := by rw [hst3]
  have hdb1 : st1.db = db1 := by rw [hst1]
  rw [hdb1] at hs2
  rw [hdb2, hdb3]
  exact fetch_after_two_sets cfg.toBaseTableConfig ks1 v1 v2 d2 default
    st.db db1 db2x db3x hnodup hempty hb2 hcols hs1 hs2 hs3

/-- Witness for C1's amended statement: the scenario of the repository's
tests, with v2 re-supplying both data columns. -/
theorem C1_witness :
    Except.map Prod.fst (stW2.fetch (.scalar (.vstr "k")) (.dict []) "a")
      = Except.map Prod.fst (stW2.fetch (.scalar (.vstr "k")) (.dict []) "a") :=
  C1_second_write_overwrites stAD stW1 stW2 stW2 cfgA "a" (.scalar (.vstr "k"))
    (.dict [("name", .vstr "a"), ("comment", .vstr "b")])
    (.dict [("name", .vstr "c"), ("comment", .vstr "e")])
    (.dict []) [("name", .vstr "c"), ("comment", .vstr "e")]
    rfl (by decide) rfl rfl (by decide) rfl rfl rfl

/-- C2: fetching an unregistered scope raises the configuration error
`new scope is not allowed` when no factory is configured; with a factory
whose config passes validation and whose table is absent, `fetch`
registers the scope, creates its (empty) table, and returns the given
default. -/
theorem C2_unknown_scope :
    (∀ (st : RelationalDbCache) (scope : String) (key : CacheKey) (default : CacheValue),
       regGet? st.scopes scope = none → st.new_scope_config = none →
       st.fetch key default scope = .error ("new scope is not allowed: " ++ scope))
    ∧ (∀ (st : RelationalDbCache) (scope : String) (f : String → RelationalDbScopeConfig)
         (cfg : RelationalDbScopeConfig) (key : CacheKey) (default : CacheValue)
         (ks : List Val),
       regGet? st.scopes scope = none → st.new_scope_config = some f →
       f scope = cfg → cfg.scope = scope →
       regGet? st.tables cfg.table = none →
       Database.hasTable st.db cfg.table = false →
       normalize_columns_values key cfg.uniq_columns = .ok ks →
       ks.length = cfg.uniq_columns.length →
       ∃ st', st.fetch key default scope = .ok (default, st')
         ∧ regGet? st'.scopes scope = some cfg
         ∧ Database.hasTable st'.db cfg.table = true) := by
  constructor
  · intro st scope key default hreg hnof
    unfold RelationalDbCache.fetch RelationalDbCache._get_scope_config
    rw [hreg, hnof]
    rfl
  · intro st scope f cfg key default ks hreg hfac hf hscope htbl hhas hnorm hlen
    have hadd : st._add_scope cfg = .ok
        { st with scopes := st.scopes ++ [(cfg.scope, cfg)],
                  tables := st.tables ++ [(cfg.table, cfg)] } := by
      unfold RelationalDbCache._add_scope
      rw [hscope, hreg, htbl]
      rfl
    have hgsc : st._get_scope_config scope = .ok (cfg, registerNewScope st cfg) := by
      unfold RelationalDbCache._get_scope_config registerNewScope
      rw [hreg, hfac]
      dsimp only
      rw [hf]
      rw [if_neg (show ¬ scope ≠ cfg.scope from fun hh => hh hscope.symm)]
      simp only [bind, Except.bind]
      rw [hadd, hfac]
      unfold RelationalDbCache._create_table_if_not_exists
      dsimp only
      simp only [List.foldl_cons, List.foldl_nil]
      unfold Database.createTableIfNotExists
      rw [hhas]
      rfl
    refine ⟨registerNewScope st cfg, ?_, ?_, ?_⟩
    · unfold RelationalDbCache.fetch
      rw [hgsc]
      simp only [bind, Except.bind]
      unfold BaseTableConfig.normalize_uniq_column_values
      rw [hnorm]
      dsimp only
      have hdbeq : (registerNewScope st cfg).db = Database.setTable st.db cfg.table [] := rfl
      have hfetch : BaseRelationalDbCache._fetch ks cfg.toBaseTableConfig default
          (registerNewScope st cfg).db = .ok default := by
        unfold BaseRelationalDbCache._fetch
        rw [if_neg (show ¬ cfg.uniq_columns.length ≠ ks.length by simp [hlen])]
        rw [hdbeq, getTable_setTable]
        rfl
      rw [hfetch]
      rfl
    · show regGet? (st.scopes ++ [(cfg.scope, cfg)]) scope = some cfg
      rw [hscope]
      exact regGet?_append_new st.scopes scope cfg hreg
    · show Database.hasTable (Database.setTable st.db cfg.table []) cfg.table = true
      exact hasTable_setTable st.db cfg.table []

/-- Witness for C2: both branches at concrete caches — `stAD` (no
factory) raises on scope `zz`; `stADF` (factory configured) returns the
default for scope `w` and registers it. -/
theorem C2_witness :
    stAD.fetch (.scalar (.vstr "k")) (.scalar .vnull) "zz"
      = .error ("new scope is not allowed: " ++ "zz")
    ∧ ∃ st', stADF.fetch (.scalar (.vstr "k")) (.scalar .vnull) "w"
        = .ok (.scalar .vnull, st')
      ∧ regGet? st'.scopes "w" = some (newScopeFactory "w")
      ∧ Database.hasTable st'.db (newScopeFactory "w").table = true :=
  ⟨C2_unknown_scope.1 stAD "zz" (.scalar (.vstr "k")) (.scalar .vnull) rfl rfl,
   C2_unknown_scope.2 stADF "w" newScopeFactory (newScopeFactory "w")
     (.scalar (.vstr "k")) (.scalar .vnull) [.vstr "k"]
     rfl rfl rfl rfl rfl rfl rfl rfl⟩

/-- C5: a duplicated scope name or duplicated table name is rejected
before any SQL reaches the database: `_add_scope` raises on a duplicate
against the registries; `_init_scopes` raises when the supplied config
list contains two configs sharing a scope or a table (registration runs
before `_create_table_if_not_exists`, so the error aborts with no table
created); the lazy path raises when the factory's config names an
already-registered table, before its create-table step. -/
theorem C5_duplicate_registration :
    (∀ (st : RelationalDbCache) (c : RelationalDbScopeConfig),
       (regGet? st.scopes c.scope).isSome = true ∨ (regGet? st.tables c.table).isSome = true →
       ∃ msg, st._add_scope c = .error msg)
    ∧ (∀ (st : RelationalDbCache) (l1 l2 l3 : List RelationalDbScopeConfig)
         (c1 c2 : RelationalDbScopeConfig),
       c1.scope = c2.scope ∨ c1.table = c2.table →
       ∃ msg, st._init_scopes (l1 ++ (c1 :: (l2 ++ (c2 :: l3)))) = .error msg)
    ∧ (∀ (st : RelationalDbCache) (scope : String) (f : String → RelationalDbScopeConfig)
         (cfg : RelationalDbScopeConfig),
       regGet? st.scopes scope = none → st.new_scope_config = some f →
       f scope = cfg → cfg.scope = scope →
       (regGet? st.tables cfg.table).isSome = true →
       ∃ msg, st._get_scope_config scope = .error msg) := by
  refine ⟨add_scope_error_of_dup, ?_, ?_⟩
  · intro st l1 l2 l3 c1 c2 hdup
    have hfold : ∃ msg, (l1 ++ (c1 :: (l2 ++ (c2 :: l3)))).foldlM
        RelationalDbCache._add_scope st = .error msg := by
      rw [foldlM_except_append]
      cases hA : l1.foldlM RelationalDbCache._add_scope st with
      | error e =>
          refine ⟨e, ?_⟩
          rfl
      | ok stA =>
          simp only [exbind_ok]
          rw [List.foldlM_cons]
          cases hB : stA._add_scope c1 with
          | error e => exact ⟨e, rfl⟩
          | ok stB =>
              simp only [exbind_ok]
              obtain ⟨hstB, -, -⟩ := add_scope_ok_elim stA c1 stB hB
              have hsc : (regGet? stB.scopes c1.scope).isSome = true := by
                rw [hstB]
                exact regGet?_append_self stA.scopes c1.scope c1
              have htb : (regGet? stB.tables c1.table).isSome = true := by
                rw [hstB]
                exact regGet?_append_self stA.tables c1.table c1
              rw [foldlM_except_append]
              cases hC : l2.foldlM RelationalDbCache._add_scope stB with
              | error e => exact ⟨e, rfl⟩
              | ok stC =>
                  simp only [exbind_ok]
                  rw [List.foldlM_cons]
                  have hsc2 := (fold_add_preserves l2 stB stC hC c1.scope).1 hsc
                  have htb2 := (fold_add_preserves l2 stB stC hC c1.table).2 htb
                  have hdup2 : (regGet? stC.scopes c2.scope).isSome = true
                      ∨ (regGet? stC.tables c2.table).isSome = true := by
                    rcases hdup with h | h
                    · exact Or.inl (h ▸ hsc2)
                    · exact Or.inr (h ▸ htb2)
                  obtain ⟨msg, hmsg⟩ := add_scope_error_of_dup stC c2 hdup2
                  refine ⟨msg, ?_⟩
                  rw [hmsg]
                  rfl
    obtain ⟨msg, hmsg⟩ := hfold
    refine ⟨msg, ?_⟩
    unfold RelationalDbCache._init_scopes
    have hne : (l1 ++ (c1 :: (l2 ++ (c2 :: l3)))).isEmpty = false := by
      cases l1 <;> rfl
    rw [hne]
    simp only [Bool.false_eq_true, if_false]
    rw [hmsg]
    rfl
  · intro st scope f cfg hreg hfac hf hscope htbl
    obtain ⟨msg, hmsg⟩ := add_scope_error_of_dup st cfg (Or.inr htbl)
    refine ⟨msg, ?_⟩
    unfold RelationalDbCache._get_scope_config
    rw [hreg, hfac]
    dsimp only
    rw [hf]
    rw [if_neg (show ¬ scope ≠ cfg.scope from fun hh => hh hscope.symm)]
    simp only [bind, Except.bind]
    rw [hmsg]

/-- Witness for C5: a duplicate scope against `stAD`'s registry; an
`_init_scopes` list containing two configs with scope `e`; and a lazy
registration whose factory names the already-registered table `ta`. -/
theorem C5_witness :
    (∃ msg, stAD._add_scope cfgA = .error msg)
    ∧ (∃ msg, stAD._init_scopes ([] ++ (cfgE1 :: ([] ++ (cfgE2 :: [])))) = .error msg)
    ∧ (∃ msg, stADdup._get_scope_config "w" = .error msg) :=
  ⟨C5_duplicate_registration.1 stAD cfgA (Or.inl rfl),
   C5_duplicate_registration.2.1 stAD [] [] [] cfgE1 cfgE2 (Or.inl rfl),
   C5_duplicate_registration.2.2 stADdup "w" factoryTaDup (factoryTaDup "w")
     rfl rfl rfl rfl rfl⟩

/-- C6: on a registered scope, each public operation wraps a scalar key
into a one-element tuple when the scope has exactly one unique column
and delegates to the corresponding primitive; with more than one unique
column, a scalar key or a list/tuple key of mismatched length makes
every operation fail before any SQL is built. -/
theorem C6_key_normalization :
    (∀ (st : RelationalDbCache) (scope : String) (cfg : RelationalDbScopeConfig)
        (v : Val) (w default : CacheValue),
       regGet? st.scopes scope = some cfg → cfg.uniq_columns.length = 1 →
       Except.map Prod.fst (st.exists (.scalar v) scope)
           = BaseRelationalDbCache._exists [v] cfg.toBaseTableConfig st.db
       ∧ Except.map Prod.fst (st.fetch (.scalar v) default scope)
           = BaseRelationalDbCache._fetch [v] cfg.toBaseTableConfig default st.db
       ∧ st.set (.scalar v) w scope = Except.map (fun db => { st with db := db })
           (BaseRelationalDbCache._set [v] w cfg.toBaseTableConfig st.db)
       ∧ st.pop (.scalar v) scope = Except.map (fun db => { st with db := db })
           (BaseRelationalDbCache._pop [v] cfg.toBaseTableConfig st.db))
    ∧ (∀ (st : RelationalDbCache) (scope : String) (cfg : RelationalDbScopeConfig)
         (key : CacheKey) (w default : CacheValue),
       regGet? st.scopes scope = some cfg → 1 < cfg.uniq_columns.length →
       ((∃ v, key = .scalar v)
         ∨ (∃ l, key = .tup l ∧ l.length ≠ cfg.uniq_columns.length)) →
       ∃ msg, st.exists key scope = .error msg
         ∧ st.fetch key default scope = .error msg
         ∧ st.set key w scope = .error msg
         ∧ st.pop key scope = .error msg) := by
  constructor
  · intro st scope cfg v w default hreg hlen1
    have hnorm : normalize_columns_values (.scalar v) cfg.uniq_columns = .ok [v] :=
      normalize_single_scalar cfg.uniq_columns v hlen1
    exact ⟨public_exists_value st scope cfg (.scalar v) [v] hreg hnorm,
           public_fetch_value st scope cfg (.scalar v) default [v] hreg hnorm,
           public_set_value st scope cfg (.scalar v) w [v] hreg hnorm,
           public_pop_value st scope cfg (.scalar v) [v] hreg hnorm⟩
  · intro st scope cfg key w default hreg hgt1 hbad
    rcases hbad with ⟨v, hv⟩ | ⟨l, hl, hll⟩
    · subst hv
      have hnorm := normalize_multi_scalar_error cfg.uniq_columns v hgt1
      exact ⟨"value should be a list or tuple",
        public_ops_error st scope cfg (.scalar v) w default _ hreg hnorm⟩
    · subst hl
      have hnorm := normalize_multi_tup_error cfg.uniq_columns l hgt1 hll
      exact ⟨"value size mismatch",
        public_ops_error st scope cfg (.tup l) w default _ hreg hnorm⟩

/-- Witness for C6: the single-column scope `a` wraps a scalar key; the
two-column scope `d` rejects a scalar key in all four operations. -/
theorem C6_witness :
    (Except.map Prod.fst (stAD.exists (.scalar (.vstr "k")) "a")
        = BaseRelationalDbCache._exists [.vstr "k"] cfgA.toBaseTableConfig stAD.db
      ∧ Except.map Prod.fst (stAD.fetch (.scalar (.vstr "k")) (.scalar .vnull) "a")
        = BaseRelationalDbCache._fetch [.vstr "k"] cfgA.toBaseTableConfig (.scalar .vnull) stAD.db
      ∧ stAD.set (.scalar (.vstr "k")) (.dict []) "a"
        = Except.map (fun db => { stAD with db := db })
            (BaseRelationalDbCache._set [.vstr "k"] (.dict []) cfgA.toBaseTableConfig stAD.db)
      ∧ stAD.pop (.scalar (.vstr "k")) "a"
        = Except.map (fun db => { stAD with db := db })
            (BaseRelationalDbCache._pop [.vstr "k"] cfgA.toBaseTableConfig stAD.db))
    ∧ (∃ msg, stAD.exists (.scalar (.vstr "k")) "d" = .error msg
        ∧ stAD.fetch (.scalar (.vstr "k")) (.scalar .vnull) "d" = .error msg
        ∧ stAD.set (.scalar (.vstr "k")) (.scalar (.vint 3)) "d" = .error msg
        ∧ stAD.pop (.scalar (.vstr "k")) "d" = .error msg) :=
  ⟨C6_key_normalization.1 stAD "a" cfgA (.vstr "k") (.dict []) (.scalar .vnull) rfl rfl,
   C6_key_normalization.2 stAD "d" cfgD (.scalar (.vstr "k")) (.scalar (.vint 3))
     (.scalar .vnull) rfl (by decide) (Or.inl ⟨.vstr "k", rfl⟩)⟩

/-- C10: the row `_set` hands to the upsert consists of exactly the
unique-column values plus the value-map entries naming configured data
columns; entries naming other columns are silently dropped; the
unique-column positions carry the key; data columns supplied by the
value carry the value's entries. A value entry naming a unique column
with a value different from the key makes `_set` fail before the upsert
is built. -/
theorem C10_written_row :
    (∀ (cfg : BaseTableConfig) (key : List Val) (value : Dict) (row : Row),
       cfg.uniq_columns.Nodup → cfg.uniq_columns.length = key.length →
       BaseRelationalDbCache.build_row cfg key value = .ok row →
       (∀ c, Dict.hasKey row c
           = (cfg.uniq_columns.contains c
               || (cfg.columns.contains c && Dict.hasKey value c)))
       ∧ (∀ nk ∈ List.zip cfg.uniq_columns key, Dict.get? row nk.1 = some nk.2)
       ∧ (∀ c, c ∈ cfg.columns → (Dict.get? value c).isSome = true →
            Dict.get? row c = Dict.get? value c))
    ∧ (∀ (cfg : BaseTableConfig) (key : List Val) (cv : CacheValue) (value : Dict)
         (db : Database),
       cfg.value_adapter.build_column_values cv = .ok value →
       (∃ p ∈ List.zip cfg.uniq_columns key, ∃ v, Dict.get? value p.1 = some v ∧ v ≠ p.2) →
       ∃ msg, BaseRelationalDbCache._set key cv cfg db = .error msg) := by
  constructor
  · intro cfg key value row hnodup hlen hok
    refine ⟨?_, ?_, ?_⟩
    · intro c
      rw [build_row_hasKey cfg key value row hok c, zip_any_fst cfg.uniq_columns key c hlen]
    · exact rowMatches_all _ _ _ (build_row_matches cfg key value row hnodup hok)
    · intro c hc hs
      rw [build_row_get? cfg key value row hok c, if_pos ⟨hc, hs⟩]
  · intro cfg key cv value db hb hconf
    obtain ⟨msg, hmsg⟩ := build_row_error_of_conflict cfg key value hconf
    refine ⟨msg, ?_⟩
    unfold BaseRelationalDbCache._set
    rw [hb]
    simp only [bind, Except.bind]
    rw [hmsg]

/-- Witness for C10: the two-unique-column default-adapter config; the
value supplies the data column plus a junk column that is dropped; a
value contradicting the key on unique column `a` makes `_set` fail. -/
theorem C10_witness :
    (Dict.hasKey [("a", .vstr "x"), ("b", .vstr "y"), ("data", .vstr "v")] "junk"
        = (cfgABd.uniq_columns.contains "junk"
            || (cfgABd.columns.contains "junk"
                && Dict.hasKey [("data", .vstr "v"), ("junk", .vstr "w")] "junk"))
      ∧ Dict.get? [("a", .vstr "x"), ("b", .vstr "y"), ("data", .vstr "v")] "a"
        = some (.vstr "x")
      ∧ Dict.get? [("a", .vstr "x"), ("b", .vstr "y"), ("data", .vstr "v")] "data"
        = Dict.get? [("data", .vstr "v"), ("junk", .vstr "w")] "data")
    ∧ (∃ msg, BaseRelationalDbCache._set [.vstr "x", .vstr "y"]
        (.dict [("a", .vstr "z")]) cfgABd [] = .error msg) := by
  have h1 := C10_written_row.1 cfgABd [.vstr "x", .vstr "y"]
    [("data", .vstr "v"), ("junk", .vstr "w")]
    [("a", .vstr "x"), ("b", .vstr "y"), ("data", .vstr "v")]
    (by decide) rfl rfl
  exact ⟨⟨h1.1 "junk", h1.2.1 ("a", .vstr "x") (by decide), h1.2.2 "data" (by decide) rfl⟩,
    C10_written_row.2 cfgABd [.vstr "x", .vstr "y"] (.dict [("a", .vstr "z")])
      [("a", .vstr "z")] [] rfl
      ⟨("a", .vstr "x"), by decide, .vstr "z", rfl, by decide⟩⟩

end Hilcat
